import Mathlib

/-!
# incurses: a minimal curses over ANSI escape sequences

Shallow embedding of `src/ncurses.h` and `src/incurses.c` (default build:
Unix terminal driver, `DEBUG` undefined so `DBG`/`DBGC` expand to nothing).

* C integers are `Nat`/`Int`; the width of a field is made explicit by a
  `% 2^w` at every store into it (`uint8_t x, y`, `attr_t` = `uint16_t`).
* The private globals `incur_global` together with what the driver has done
  (bytes written to `stdout`, the flush mark, the terminal's line-discipline
  flags) form the record `Screen`, passed explicitly through every call.
* The colour-pair table `incurses_pairs[COLOR_PAIRS]` is a separate global,
  a function on `Fin 16`.
* Code whose behaviour C leaves undefined (writing past `char cmd[10]`,
  reading past the end of a string buffer) returns `none`.
-/

namespace Incurses

/-! ## ncurses.h -/

/-- Success sentinel: `#define OK 0`. -/
def OK : Int := 0

/-- Fixed screen height: `#define LINES 24`. -/
def LINES : Nat := 24

/-- Fixed screen width: `#define COLS 80`. -/
def COLS : Nat := 80

def A_NORMAL : Nat := 0x0000
def A_UNDERLINE : Nat := 0x0001
def A_REVERSE : Nat := 0x0002
def A_STANDOUT : Nat := A_REVERSE

def INCURSES_ATTR_MASK : Nat := 0x00ff
def INCURSES_FG_SHIFT : Nat := 8
def INCURSES_FG_MASK : Nat := 0x0f00
def INCURSES_BG_SHIFT : Nat := 12
def INCURSES_BG_MASK : Nat := 0xf000

/-- Macro `INCURSES_FG(c) (((c)+1) << INCURSES_FG_SHIFT)`. -/
def INCURSES_FG (c : Nat) : Nat := (c + 1) <<< INCURSES_FG_SHIFT

/-- Macro `INCURSES_BG(c) (((c)+1) << INCURSES_BG_SHIFT)`. -/
def INCURSES_BG (c : Nat) : Nat := (c + 1) <<< INCURSES_BG_SHIFT

def COLOR_BLACK : Nat := 0
def COLOR_RED : Nat := 1
def COLOR_GREEN : Nat := 2
def COLOR_YELLOW : Nat := 3
def COLOR_BLUE : Nat := 4
def COLOR_MAGENTA : Nat := 5
def COLOR_CYAN : Nat := 6
def COLOR_WHITE : Nat := 7

/-- Number of colour-pair slots: `#define COLOR_PAIRS 16`. -/
def COLOR_PAIRS : Nat := 16

/-- The global `attr_t incurses_pairs[COLOR_PAIRS]`. -/
abbrev PairTable := Fin 16 → Nat

/-- Static storage: every slot of `incurses_pairs` starts as zero. -/
def incurses_pairs : PairTable := fun _ => 0

/-- Conversion of a C `int` to `unsigned` (32 bit): reduction modulo 2^32. -/
def toUnsigned (v : Int) : Nat := (v % 4294967296).toNat

/-- Macro `COLOR_PAIR(p)`:
`((unsigned)(p) >= COLOR_PAIRS ? (attr_t)0 : incurses_pairs[p])`,
for an argument `p` of type `int` or `unsigned`. -/
def COLOR_PAIR (t : PairTable) (p : Int) : Nat :=
  if h : toUnsigned p < 16 then t ⟨toUnsigned p, h⟩ else 0

/-! ## incurses.c: state -/

/-- The private globals `incur_global` (fields `started` to `y`) and the
observable state of the Unix terminal driver: `out` is every byte handed to
`stdout` so far, `flushed` is how many of them had been written when
`fflush(stdout)` was last called, `tty_echo` is the `ECHO` bit and
`tty_canon` the `ICANON | ISIG` bits of the terminal's `c_lflag`. -/
structure Screen where
  started : Bool
  echo : Bool
  keypad : Bool
  attr : Nat
  x : Nat
  y : Nat
  out : List Nat
  flushed : Nat
  tty_echo : Bool
  tty_canon : Bool
deriving DecidableEq, Repr

/-- The static initialiser of `incur_global`, with nothing written yet, on a
terminal in its usual cooked, echoing mode. -/
def incur_global : Screen :=
  { started := false, echo := true, keypad := false, attr := 0x00,
    x := 0, y := LINES - 1,
    out := [], flushed := 0, tty_echo := true, tty_canon := true }

/-- The bytes of a C string literal (all literals of the source are ASCII). -/
def cstring (lit : String) : List Nat := lit.toList.map Char.toNat

/-- `#define ESC "\x1b"`. -/
def ESC : List Nat := [0x1b]

/-- Macro `GET_FG(a) ((((a) & INCURSES_FG_MASK) >> INCURSES_FG_SHIFT) - 1)`,
computed in `int`. -/
def GET_FG (a : Nat) : Int := (((a &&& INCURSES_FG_MASK) >>> INCURSES_FG_SHIFT : Nat) : Int) - 1

/-- Macro `GET_BG(a) ((((a) & INCURSES_BG_MASK) >> INCURSES_BG_SHIFT) - 1)`,
computed in `int`. -/
def GET_BG (a : Nat) : Int := (((a &&& INCURSES_BG_MASK) >>> INCURSES_BG_SHIFT : Nat) : Int) - 1

/-! ## Unix terminal driver -/

/-- Driver `unixterm_raw`: clears or sets `ICANON | ISIG`. -/
def DRV_RAW (flag : Bool) (s : Screen) : Screen := { s with tty_canon := !flag }

/-- Driver `unixterm_echo`: sets or clears `ECHO`. -/
def DRV_ECHO (flag : Bool) (s : Screen) : Screen := { s with tty_echo := flag }

/-- Driver `unixterm_putc`: `fputc(c, stdout)` writes `(unsigned char)c`. -/
def DRV_PUTC (c : Int) (s : Screen) : Screen :=
  { s with out := s.out ++ [(c % 256).toNat] }

/-- Driver `unixterm_puts`: `fputs(str, stdout)` writes the bytes of `str`. -/
def DRV_PUTS (str : List Nat) (s : Screen) : Screen :=
  { s with out := s.out ++ str }

/-- Driver `DRV_FLUSH()`: `fflush(stdout)`. -/
def DRV_FLUSH (s : Screen) : Screen := { s with flushed := s.out.length }

/-! ## Colour pairs -/

/-- Function `init_pair(unsigned pair, uint8_t fg, uint8_t bg)`. The error
sentinel `INCURSES_ERR` comes from a header that is not part of the source
tree, so it is the parameter `INCURSES_ERR`. Result: return value and the
table afterwards; the store into the `attr_t` slot truncates to 16 bits. -/
def init_pair (INCURSES_ERR : Int) (t : PairTable) (pair fg bg : Nat) : Int × PairTable :=
  if pair = 0 ∨ pair ≥ COLOR_PAIRS then (INCURSES_ERR, t)
  else if fg ≥ 8 ∨ bg ≥ 8 then (INCURSES_ERR, t)
  else (OK, fun i => if i.val = pair then (INCURSES_FG fg ||| INCURSES_BG bg) % 65536 else t i)

/-! ## Output -/

/-- Function `curs_set(bool visible)`. -/
def curs_set (visible : Bool) (s : Screen) : Int × Screen :=
  if visible then (OK, DRV_PUTS (ESC ++ cstring "[?25h") s)
  else (OK, DRV_PUTS (ESC ++ cstring "[?25l") s)

/-- Function `clear()`. -/
def clear (s : Screen) : Int × Screen := (OK, DRV_PUTS (ESC ++ cstring "[2J") s)

/-- Function `clrtoeol()`. -/
def clrtoeol (s : Screen) : Int × Screen := (OK, DRV_PUTS (ESC ++ cstring "[K") s)

/-- Function `refresh()`. -/
def refresh (s : Screen) : Int × Screen := (OK, DRV_FLUSH s)

/-- Function `addch(uint8_t ch)`: the `switch` on `ch`; `-- G(x)`, `++ G(x)`
and `++ G(y)` are stores into `uint8_t` fields. -/
def addch (ch : Nat) (s : Screen) : Int × Screen :=
  if ch = 0x08 then
    if s.x > 0 then
      let s1 := DRV_PUTC ch s
      (OK, { s1 with x := (s1.x - 1) % 256 })
    else (OK, s)
  else if ch = 0x09 then (OK, s)
  else if ch = 0x0a then
    let s1 := (clrtoeol s).2
    let s2 := DRV_PUTC ch s1
    let s3 := { s2 with y := (s2.y + 1) % 256 }
    (OK, { s3 with x := 0 })
  else if ch = 0x0d then
    let s1 := DRV_PUTC ch s
    (OK, { s1 with x := 0 })
  else if ch < 0x20 ∨ ch ≥ 0x7f then
    (OK, DRV_PUTC ch s)
  else
    let s1 := DRV_PUTC ch s
    (OK, { s1 with x := (s1.x + 1) % 256 })

/-- Library `strlen`: index of the first NUL byte of the buffer, `none` when
the buffer holds no NUL. -/
def strlen : List Nat → Option Nat
  | [] => none
  | c :: rest => if c = 0 then some 0 else (strlen rest).map (· + 1)

/-- The loop `while (n-- > 0) { chtype c = *str++; addch(c); }` of `addnstr`,
`n` iterations over the buffer `str`; `none` when it reads past the buffer. -/
def addnstr_loop : Nat → List Nat → Screen → Option Screen
  | 0, _, s => some s
  | _ + 1, [], _ => none
  | n + 1, c :: rest, s => addnstr_loop n rest (addch (c % 256) s).2

/-- Function `addnstr(const char *str, int n)`; `str` is the caller's buffer,
terminator included. -/
def addnstr (str : List Nat) (n : Int) (s : Screen) : Option (Int × Screen) :=
  (if n < 0 then (strlen str).map Int.ofNat else some n).bind fun m =>
    (addnstr_loop m.toNat str s).map fun s1 => (OK, s1)

/-- Function `attrset(attr_t attr)`. -/
def attrset (attr : Nat) (s : Screen) : Int × Screen :=
  if attr ≠ s.attr then
    let s1 := DRV_PUTS (ESC ++ cstring "[0") s
    let s2 := if attr &&& INCURSES_FG_MASK ≠ 0 then
        DRV_PUTC (48 + GET_FG attr) (DRV_PUTS (cstring ";3") s1) else s1
    let s3 := if attr &&& INCURSES_BG_MASK ≠ 0 then
        DRV_PUTC (48 + GET_BG attr) (DRV_PUTS (cstring ";4") s2) else s2
    let s4 := if attr &&& A_UNDERLINE ≠ 0 then DRV_PUTS (cstring ";4") s3 else s3
    let s5 := if attr &&& A_REVERSE ≠ 0 then DRV_PUTS (cstring ";7") s4 else s4
    let s6 := DRV_PUTC 109 s5
    (OK, { s6 with attr := attr })
  else (OK, s)

/-- The `int` value `~m` seen as a 32-bit pattern, for a mask `m < 2^32`. -/
def compl32 (m : Nat) : Nat := 0xffffffff - m

/-- The local variable `attr` of `attr_on` when it reaches `return
attrset(attr)`, from the cached word `a0 = G(attr)` and the argument `on_`
(the source's `on`); `attr` is an `attr_t`, so each assignment to it truncates
to 16 bits. -/
def attr_on_word (a0 on_ : Nat) : Nat :=
  let a1 := (a0 ||| (on_ &&& INCURSES_ATTR_MASK)) % 65536
  let a2 := if on_ &&& INCURSES_FG_MASK ≠ 0 then
      ((a1 &&& compl32 INCURSES_FG_MASK) ||| (on_ &&& INCURSES_FG_MASK)) % 65536 else a1
  if on_ &&& INCURSES_BG_MASK ≠ 0 then
    ((a2 &&& compl32 INCURSES_BG_MASK) ||| (on_ &&& INCURSES_BG_MASK)) % 65536 else a2

/-- Function `attr_on(attr_t on, void *opts)`; `opts` is unused. -/
def attr_on (on_ : Nat) (s : Screen) : Int × Screen :=
  attrset (attr_on_word s.attr on_) s

/-- Library `sprintf("%u", n)` digits, most significant first: `fuel` bounds
the number of digits produced. -/
def udigits : Nat → Nat → List Nat → List Nat
  | 0, _, acc => acc
  | fuel + 1, n, acc =>
    if n < 10 then (48 + n) :: acc else udigits fuel (n / 10) ((48 + n % 10) :: acc)

/-- Library `sprintf("%u", n)` for a 32-bit `unsigned` (at most 10 digits). -/
def fmt_u (n : Nat) : List Nat := udigits 10 n []

/-- The text `sprintf(cmd, ESC"[%u;%uH", y+1, x+1)` produces in `_move`
(`y+1`, `x+1` in unsigned arithmetic). -/
def move_cmd (y x : Nat) : List Nat :=
  ESC ++ cstring "[" ++ fmt_u ((y + 1) % 4294967296) ++ cstring ";"
    ++ fmt_u ((x + 1) % 4294967296) ++ cstring "H"

/-- Function `_move(unsigned y, unsigned x)`: formats the command into
`char cmd[10]` and writes it; `none` when the text and its terminator exceed
the buffer. -/
def _move (y x : Nat) (s : Screen) : Option Screen :=
  if (move_cmd y x).length + 1 ≤ 10 then some (DRV_PUTS (move_cmd y x) s) else none

/-- Function `move(int y, int x)`: the comparison is made in `int`, the
stores truncate to `uint8_t`, the call of `_move` converts to `unsigned`. -/
def move (y x : Int) (s : Screen) : Option (Int × Screen) :=
  if ¬ (x = (s.x : Int) ∧ y = (s.y : Int)) then
    let s1 := { s with x := (x % 256).toNat }
    let s2 := { s1 with y := (y % 256).toNat }
    (_move (toUnsigned y) (toUnsigned x) s2).map fun s3 => (OK, s3)
  else some (OK, s)

/-- Function `unctrl(chtype c)`: the bytes stored into `repr`, read back as a
C string (up to the first NUL). -/
def unctrl (c : Nat) : List Nat :=
  List.takeWhile (fun b => b != 0)
    (if c ≥ 0x20 ∧ c < 0x7f then [c % 256, 0]
     else if c < 0x80 then [94, (c ^^^ 0x40) % 256, 0]
     else if c ≥ 0xa0 ∧ c < 0xff then [77, 45, (c ^^^ 0x80) % 256, 0]
     else [126, (c ^^^ 0xc0) % 256, 0])

/-! ## Session -/

/-- The only window: `WINDOW *stdscr = (WINDOW *)1`. -/
def stdscr : Nat := 1

/-- Function `initscr()`; returns `stdscr`. -/
def initscr (s : Screen) : Option (Nat × Screen) :=
  let s1 := DRV_ECHO false s
  let s2 := (attrset A_NORMAL s1).2
  let s3 := (clear s2).2
  (move 0 0 s3).map fun r => (stdscr, { r.2 with started := true })

/-- Function `endwin()`. -/
def endwin (s : Screen) : Option (Int × Screen) :=
  (move (LINES - 1 : Nat) 0 s).map fun r =>
    let s2 := (attrset A_NORMAL r.2).2
    let s3 := (clrtoeol s2).2
    let s4 := (curs_set true s3).2
    let s5 := DRV_PUTS (ESC ++ cstring "[4l") s4
    let s6 := (refresh s5).2
    let s7 := DRV_ECHO true s6
    (OK, { s7 with started := false })

/-! ## Specification-side definitions -/

/-- Spec `pack(fg?, bg?, underline, reverse)`, in the spec's words: the flags
occupy the low byte, the foreground the 4 bits above it and the background
the top 4 bits; a colour field of 0 means unset and the values 1..8 stand
for the colours 0..7. -/
def spec_pack (fg bg : Option Nat) (underline reverse : Bool) : Nat :=
  (if underline then A_UNDERLINE else 0) + (if reverse then A_REVERSE else 0)
    + 256 * (match fg with | none => 0 | some c => c + 1)
    + 4096 * (match bg with | none => 0 | some c => c + 1)

/-- The bytes `attrset(attr)` writes when `attr` differs from the cached
word: the driver calls in the body of its `if`, in order. -/
def attrset_bytes (attr : Nat) : List Nat :=
  ESC ++ cstring "[0"
    ++ (if attr &&& INCURSES_FG_MASK ≠ 0
        then cstring ";3" ++ [((48 + GET_FG attr) % 256).toNat] else [])
    ++ (if attr &&& INCURSES_BG_MASK ≠ 0
        then cstring ";4" ++ [((48 + GET_BG attr) % 256).toNat] else [])
    ++ (if attr &&& A_UNDERLINE ≠ 0 then cstring ";4" else [])
    ++ (if attr &&& A_REVERSE ≠ 0 then cstring ";7" else [])
    ++ [109]

/-- Spec `mergeOnto(base, additions)`, in the spec's words: the flags (low
byte) are OR'd; the foreground field and the background field are taken from
`additions` where it specifies them (non-zero field) and from `base`
otherwise. -/
def spec_mergeOnto (base additions : Nat) : Nat :=
  ((base &&& INCURSES_ATTR_MASK) ||| (additions &&& INCURSES_ATTR_MASK))
    ||| (if additions &&& INCURSES_FG_MASK ≠ 0 then additions &&& INCURSES_FG_MASK
         else base &&& INCURSES_FG_MASK)
    ||| (if additions &&& INCURSES_BG_MASK ≠ 0 then additions &&& INCURSES_BG_MASK
         else base &&& INCURSES_BG_MASK)

/-- Spec attribute reset+rebuild sequence (spec section 6), in the spec's
words: `ESC[0`, then `;3` and the foreground digit if the foreground field is
set, then `;4` and the background digit if the background field is set, then
`;4` if underline, then `;7` if reverse, then `m`. A field value `k` in 1..8
stands for the colour `k - 1`, whose digit is `'0' + (k - 1)`. -/
def spec_rebuild (w : Nat) : List Nat :=
  let fgf := (w &&& INCURSES_FG_MASK) >>> INCURSES_FG_SHIFT
  let bgf := (w &&& INCURSES_BG_MASK) >>> INCURSES_BG_SHIFT
  ESC ++ cstring "[0"
    ++ (if fgf ≠ 0 then cstring ";3" ++ [48 + (fgf - 1)] else [])
    ++ (if bgf ≠ 0 then cstring ";4" ++ [48 + (bgf - 1)] else [])
    ++ (if w &&& A_UNDERLINE ≠ 0 then cstring ";4" else [])
    ++ (if w &&& A_REVERSE ≠ 0 then cstring ";7" else [])
    ++ cstring "m"

/-- Reading an attribute rebuild sequence back into a word: after `ESC[0`, a
`;3d` gives the foreground field, a `;4d` with `d` a digit `'0'..'7'` gives
the background field, a `;4` not followed by such a digit is underline, a
`;7` is reverse. Used to show that the sequence determines the word. -/
def rebuild_decode (bs : List Nat) : Nat :=
  let r0 := bs.drop 3
  let fg := match r0 with
    | 59 :: 51 :: d :: rest => (rest, (d - 48 + 1) * 256)
    | _ => (r0, 0)
  let bg := match fg.1 with
    | 59 :: 52 :: d :: rest =>
      if 48 ≤ d ∧ d ≤ 55 then (rest, (d - 48 + 1) * 4096) else (fg.1, 0)
    | _ => (fg.1, 0)
  let ul := match bg.1 with
    | 59 :: 52 :: rest => (rest, A_UNDERLINE)
    | _ => (bg.1, 0)
  let rv := match ul.1 with
    | 59 :: 55 :: _ => A_REVERSE
    | _ => 0
  rv + ul.2 + fg.2 + bg.2

/-- Decimal rendering of a number as the spec's wire format means it
(`{row+1}`, `{col+1}`): the ASCII bytes of its usual decimal notation. -/
def spec_decimal (n : Nat) : List Nat := cstring (Nat.repr n)

/-- A finite sequence of `init_pair` calls, each with its arguments
`(pair, fg, bg)`, run in order on the table `t`; return values are dropped. -/
def init_pair_calls (INCURSES_ERR : Int) (t : PairTable) : List (Nat × Nat × Nat) → PairTable
  | [] => t
  | (pair, fg, bg) :: rest =>
    init_pair_calls INCURSES_ERR (init_pair INCURSES_ERR t pair fg bg).2 rest

/-- Reading a result of `unctrl` back into the byte it renders. Used to show
that `unctrl` is injective. -/
def unctrl_decode : List Nat → Nat
  | [c] => c
  | [94, d] => d ^^^ 0x40
  | [126, d] => d ^^^ 0xc0
  | [77, 45, d] => d ^^^ 0x80
  | _ => 0

/-! ## Colour-pair table -/

theorem toUnsigned_natCast (n : Nat) (h : n < 4294967296) : toUnsigned (n : Int) = n := by
  unfold toUnsigned
  omega

theorem COLOR_PAIR_natCast (t : PairTable) (p : Nat) (h : p < 16) :
    COLOR_PAIR t (p : Int) = t ⟨p, h⟩ := by
  have hu : toUnsigned (p : Int) = p := toUnsigned_natCast p (by omega)
  unfold COLOR_PAIR
  simp only [hu, h, dite_true]

theorem colour_word_eq (fg bg : Nat) (hfg : fg < 8) (hbg : bg < 8) :
    INCURSES_FG fg ||| INCURSES_BG bg = 256 * (fg + 1) + 4096 * (bg + 1) := by
  interval_cases fg <;> interval_cases bg <;> rfl

/-- C1. Round trip of the colour-pair table: for a pair id in 1..15 and colours
below 8, `init_pair` returns `OK`, and `COLOR_PAIR` of that id in the table
afterwards is `INCURSES_FG(fg) | INCURSES_BG(bg)`, which is
`((fg+1) << 8) | ((bg+1) << 12)` and the spec's `pack(fg, bg, false, false)`. -/
theorem init_pair_roundtrip (INCURSES_ERR : Int) (t : PairTable) (pair fg bg : Nat)
    (hpair : 1 ≤ pair ∧ pair ≤ 15) (hfg : fg < 8) (hbg : bg < 8) :
    (init_pair INCURSES_ERR t pair fg bg).1 = OK ∧
    COLOR_PAIR (init_pair INCURSES_ERR t pair fg bg).2 (pair : Int)
      = INCURSES_FG fg ||| INCURSES_BG bg ∧
    INCURSES_FG fg ||| INCURSES_BG bg = ((fg + 1) <<< 8) ||| ((bg + 1) <<< 12) ∧
    INCURSES_FG fg ||| INCURSES_BG bg = spec_pack (some fg) (some bg) false false := by
  have h16 : pair < 16 := by omega
  have hw := colour_word_eq fg bg hfg hbg
  have hlt : INCURSES_FG fg ||| INCURSES_BG bg < 65536 := by omega
  have hg1 : ¬ (pair = 0 ∨ pair ≥ COLOR_PAIRS) := by
    unfold COLOR_PAIRS
    omega
  have hg2 : ¬ (fg ≥ 8 ∨ bg ≥ 8) := by omega
  refine ⟨?_, ?_, rfl, ?_⟩
  · simp only [init_pair, hg1, hg2, if_false]
  · rw [COLOR_PAIR_natCast _ pair h16]
    simp only [init_pair, hg1, hg2, if_false, if_true]
    exact Nat.mod_eq_of_lt hlt
  · rw [hw]
    simp [spec_pack]

/-- Witness of C1: `init_pair(1, COLOR_RED, COLOR_BLACK)` on the all-zero
table, after which `COLOR_PAIR(1)` is `0x1200`. -/
theorem init_pair_roundtrip_witness :
    ((1 ≤ 1 ∧ 1 ≤ 15) ∧ COLOR_RED < 8 ∧ COLOR_BLACK < 8) ∧
    ((init_pair 1 incurses_pairs 1 COLOR_RED COLOR_BLACK).1 = OK ∧
     COLOR_PAIR (init_pair 1 incurses_pairs 1 COLOR_RED COLOR_BLACK).2 ((1 : Nat) : Int)
       = INCURSES_FG COLOR_RED ||| INCURSES_BG COLOR_BLACK ∧
     INCURSES_FG COLOR_RED ||| INCURSES_BG COLOR_BLACK
       = ((COLOR_RED + 1) <<< 8) ||| ((COLOR_BLACK + 1) <<< 12) ∧
     INCURSES_FG COLOR_RED ||| INCURSES_BG COLOR_BLACK
       = spec_pack (some COLOR_RED) (some COLOR_BLACK) false false) ∧
    COLOR_PAIR (init_pair 1 incurses_pairs 1 COLOR_RED COLOR_BLACK).2 1 = 0x1200 :=
  ⟨by decide,
   init_pair_roundtrip 1 incurses_pairs 1 COLOR_RED COLOR_BLACK (by decide) (by decide) (by decide),
   by decide⟩

/-- C2. An invalid pair id (0, or 16 and above) makes `init_pair` return the
error sentinel and leaves the whole colour-pair table as it was, whatever the
colours. The code has one error sentinel, `INCURSES_ERR`, for both of the
spec's error kinds; the call is a failure as soon as that sentinel differs from
`OK`. -/
theorem init_pair_invalid_pair (INCURSES_ERR : Int) (t : PairTable) (pair fg bg : Nat)
    (hpair : pair = 0 ∨ 16 ≤ pair) :
    init_pair INCURSES_ERR t pair fg bg = (INCURSES_ERR, t) ∧
    (∀ i : Fin 16, (init_pair INCURSES_ERR t pair fg bg).2 i = t i) ∧
    (INCURSES_ERR ≠ OK → (init_pair INCURSES_ERR t pair fg bg).1 ≠ OK) := by
  have hg1 : pair = 0 ∨ pair ≥ COLOR_PAIRS := hpair
  have h : init_pair INCURSES_ERR t pair fg bg = (INCURSES_ERR, t) := by
    simp only [init_pair, hg1, if_true]
  exact ⟨h, fun i => by rw [h], fun hne => by rw [h]; exact hne⟩

/-- Witness of C2: pair id 16 with valid colours. -/
theorem init_pair_invalid_pair_witness :
    ((16 : Nat) = 0 ∨ 16 ≤ 16) ∧
    (init_pair 1 incurses_pairs 16 COLOR_RED COLOR_BLACK = (1, incurses_pairs) ∧
     (∀ i : Fin 16, (init_pair 1 incurses_pairs 16 COLOR_RED COLOR_BLACK).2 i
       = incurses_pairs i) ∧
     ((1 : Int) ≠ OK → (init_pair 1 incurses_pairs 16 COLOR_RED COLOR_BLACK).1 ≠ OK)) :=
  ⟨by decide, init_pair_invalid_pair 1 incurses_pairs 16 COLOR_RED COLOR_BLACK (by decide)⟩

/-- C3. A colour of 8 or more (foreground or background) makes `init_pair`
return the error sentinel and store nothing, whatever the pair id. The code
has one error sentinel, `INCURSES_ERR`, for both of the spec's error kinds; the
call is a failure as soon as that sentinel differs from `OK`. -/
theorem init_pair_invalid_color (INCURSES_ERR : Int) (t : PairTable) (pair fg bg : Nat)
    (hcol : 8 ≤ fg ∨ 8 ≤ bg) :
    init_pair INCURSES_ERR t pair fg bg = (INCURSES_ERR, t) ∧
    (INCURSES_ERR ≠ OK → (init_pair INCURSES_ERR t pair fg bg).1 ≠ OK) := by
  have hg2 : fg ≥ 8 ∨ bg ≥ 8 := hcol
  have h : init_pair INCURSES_ERR t pair fg bg = (INCURSES_ERR, t) := by
    by_cases hg1 : pair = 0 ∨ pair ≥ COLOR_PAIRS
    · simp only [init_pair, hg1, if_true]
    · simp only [init_pair, hg1, hg2, if_false, if_true]
  exact ⟨h, fun hne => by rw [h]; exact hne⟩

/-- Witness of C3: a valid pair id with foreground 8. -/
theorem init_pair_invalid_color_witness :
    ((8 : Nat) ≤ 8 ∨ (8 : Nat) ≤ COLOR_BLACK) ∧
    (init_pair 1 incurses_pairs 1 8 COLOR_BLACK = (1, incurses_pairs) ∧
     ((1 : Int) ≠ OK → (init_pair 1 incurses_pairs 1 8 COLOR_BLACK).1 ≠ OK)) :=
  ⟨by decide, init_pair_invalid_color 1 incurses_pairs 1 8 COLOR_BLACK (by decide)⟩

/-! ## Cached operations: `move` and `attrset` -/

theorem attrset_same (w : Nat) (s : Screen) (h : w = s.attr) : attrset w s = (OK, s) := by
  unfold attrset
  simp only [h, ne_eq, not_true_eq_false, if_false]

theorem attrset_diff (w : Nat) (s : Screen) (h : w ≠ s.attr) :
    attrset w s = (OK, { s with out := s.out ++ attrset_bytes w, attr := w }) := by
  unfold attrset attrset_bytes
  by_cases h1 : w &&& INCURSES_FG_MASK ≠ 0 <;> by_cases h2 : w &&& INCURSES_BG_MASK ≠ 0 <;>
    by_cases h3 : w &&& A_UNDERLINE ≠ 0 <;> by_cases h4 : w &&& A_REVERSE ≠ 0 <;>
    simp [h, h1, h2, h3, h4, DRV_PUTS, DRV_PUTC, List.append_assoc]

theorem attrset_bytes_ne_nil (w : Nat) : attrset_bytes w ≠ [] := by
  unfold attrset_bytes ESC
  simp

theorem fmt_u_length_two : ∀ n, n < 100 → (fmt_u n).length ≤ 2 := by
  decide

set_option maxRecDepth 100000 in
theorem fmt_u_length_three : ∀ n, n < 257 → (fmt_u n).length ≤ 3 := by
  decide

theorem move_cmd_fits (y x : Nat) (hy : y ≤ 255) (hx : x ≤ 255) (h : y < 99 ∨ x < 99) :
    (move_cmd y x).length + 1 ≤ 10 := by
  have h1 : (y + 1) % 4294967296 = y + 1 := Nat.mod_eq_of_lt (by omega)
  have h2 : (x + 1) % 4294967296 = x + 1 := Nat.mod_eq_of_lt (by omega)
  have l1 := fmt_u_length_three (y + 1) (by omega)
  have l2 := fmt_u_length_three (x + 1) (by omega)
  have e1 : ("[" : String).data.length = 1 := rfl
  have e2 : (";" : String).data.length = 1 := rfl
  have e3 : ("H" : String).data.length = 1 := rfl
  simp only [move_cmd, h1, h2, ESC, cstring, List.length_append, List.length_cons,
    List.length_nil, List.length_map, String.toList]
  rcases h with h | h
  · have l3 := fmt_u_length_two (y + 1) (by omega)
    omega
  · have l3 := fmt_u_length_two (x + 1) (by omega)
    omega

theorem _move_eq (y x : Nat) (s : Screen) :
    _move y x s
      = if (move_cmd y x).length + 1 ≤ 10 then some (DRV_PUTS (move_cmd y x) s) else none := by
  rfl

/-- Counterexample to C4 as stated: from the static initial state,
`move(0, 256)` writes `ESC[1;257H` and caches column `(uint8_t)256 = 0`; the
same call again compares 256 with the cached 0, so it writes `ESC[1;257H` a
second time. -/
theorem move_twice_counterexample :
    (move 0 256 incur_global).map (fun r => (r.1, r.2.x, r.2.y, r.2.out))
      = some (OK, 0, 0, cstring "\x1b[1;257H") ∧
    ((move 0 256 incur_global).bind fun r => move 0 256 r.2).map
        (fun r => (r.1, r.2.x, r.2.y, r.2.out))
      = some (OK, 0, 0, cstring "\x1b[1;257H" ++ cstring "\x1b[1;257H") := by
  decide

/-- C4, amended. For arguments that the 8-bit cache fields can hold
(0 ≤ r, c ≤ 255): whenever `move(r, c)` completes, it returns `OK` and the same
call repeated on the resulting state writes nothing and leaves the state as it
is; and the first call does complete whenever r < 99 or c < 99 (the command
then fits `cmd`), so for every position of the 24 x 80 screen. -/
theorem move_idempotent_in_cache_range (s : Screen) (r c : Int)
    (hr : 0 ≤ r ∧ r ≤ 255) (hc : 0 ≤ c ∧ c ≤ 255) :
    (∀ ret s1, move r c s = some (ret, s1) → ret = OK ∧ move r c s1 = some (OK, s1)) ∧
    (r < 99 ∨ c < 99 → ∃ s1, move r c s = some (OK, s1)) := by
  constructor
  · intro ret s1 h
    unfold move at h
    by_cases heq : c = (s.x : Int) ∧ r = (s.y : Int)
    · simp only [heq, and_self, not_true_eq_false, if_false, Option.some.injEq,
        Prod.mk.injEq] at h
      obtain ⟨h1, h2⟩ := h
      subst h2
      refine ⟨h1.symm, ?_⟩
      unfold move
      simp only [heq, and_self, not_true_eq_false, if_false]
    · simp only [heq, not_false_eq_true, if_true, _move_eq] at h
      split at h
      · simp only [Option.map_some', Option.some.injEq, Prod.mk.injEq] at h
        obtain ⟨h1, h2⟩ := h
        subst h2
        refine ⟨h1.symm, ?_⟩
        have hx : c = (((c % 256).toNat : Nat) : Int) := by omega
        have hy : r = (((r % 256).toNat : Nat) : Int) := by omega
        unfold move
        simp only [DRV_PUTS, ← hx, ← hy, and_self, not_true_eq_false, if_false]
      · simp at h
  · intro hfew
    unfold move
    by_cases heq : c = (s.x : Int) ∧ r = (s.y : Int)
    · exact ⟨s, by simp only [heq, and_self, not_true_eq_false, if_false]⟩
    · simp only [heq, not_false_eq_true, if_true, _move_eq]
      have hfit : (move_cmd (toUnsigned r) (toUnsigned c)).length + 1 ≤ 10 := by
        obtain ⟨n, rfl⟩ := Int.eq_ofNat_of_zero_le hr.1
        obtain ⟨m, rfl⟩ := Int.eq_ofNat_of_zero_le hc.1
        rw [toUnsigned_natCast n (by omega), toUnsigned_natCast m (by omega)]
        exact move_cmd_fits n m (by omega) (by omega) (by omega)
      simp only [hfit, if_true, Option.map_some']
      exact ⟨_, rfl⟩

/-- Witness of C4 (amended): `move(5, 7)` from the static initial state. -/
theorem move_idempotent_in_cache_range_witness :
    ((0 : Int) ≤ 5 ∧ (5 : Int) ≤ 255) ∧ ((0 : Int) ≤ 7 ∧ (7 : Int) ≤ 255) ∧
    ((∀ ret s1, move 5 7 incur_global = some (ret, s1) →
        ret = OK ∧ move 5 7 s1 = some (OK, s1)) ∧
     ((5 : Int) < 99 ∨ (7 : Int) < 99 → ∃ s1, move 5 7 incur_global = some (OK, s1))) ∧
    (move 5 7 incur_global).map (fun r => r.2.out) = some (cstring "\x1b[6;8H") :=
  ⟨by decide, by decide,
   move_idempotent_in_cache_range incur_global 5 7 (by decide) (by decide), by decide⟩

/-- C5. Idempotence of `attrset`: the first call appends bytes to the output
exactly when the word differs from the cached attribute, and the same call
repeated on the resulting state returns `OK`, writes nothing and leaves the
state as it is. -/
theorem attrset_idempotent (s : Screen) (w : Nat) :
    (attrset w s).1 = OK ∧
    (∃ bs, (attrset w s).2.out = s.out ++ bs ∧ (bs ≠ [] ↔ w ≠ s.attr)) ∧
    attrset w (attrset w s).2 = (OK, (attrset w s).2) := by
  by_cases h : w = s.attr
  · rw [attrset_same w s h]
    refine ⟨rfl, ⟨[], by simp, by simp [h]⟩, ?_⟩
    exact attrset_same w s h
  · rw [attrset_diff w s h]
    refine ⟨rfl, ⟨attrset_bytes w, rfl, by simp [h, attrset_bytes_ne_nil w]⟩, ?_⟩
    exact attrset_same w _ rfl

/-! ## Character output -/

theorem DRV_PUTC_byte (ch : Nat) (s : Screen) (h : ch < 256) :
    DRV_PUTC (ch : Int) s = { s with out := s.out ++ [ch] } := by
  have hb : (((ch : Int) % 256).toNat) = ch := by omega
  unfold DRV_PUTC
  rw [hb]

/-- C6. Newline: `addch(0x0a)` returns `OK`, appends exactly `ESC [ K` and then
the byte `0x0a` to the output, sets the cached column to 0 and the cached row
to the old row plus one as an 8-bit value (plus one exactly, below row 255);
the attribute and every other field stay as they were. -/
theorem addch_newline (s : Screen) :
    addch 0x0a s
      = (OK, { s with out := s.out ++ [0x1b, 0x5b, 0x4b, 0x0a], x := 0, y := (s.y + 1) % 256 }) ∧
    (addch 0x0a s).2.out = s.out ++ (clrtoeol s).2.out.drop s.out.length ++ [0x0a] ∧
    (addch 0x0a s).2.attr = s.attr ∧
    (s.y < 255 → (addch 0x0a s).2.y = s.y + 1) := by
  have h : addch 0x0a s
      = (OK, { s with out := s.out ++ [0x1b, 0x5b, 0x4b, 0x0a], x := 0,
                      y := (s.y + 1) % 256 }) := by
    simp [addch, clrtoeol, DRV_PUTS, DRV_PUTC, ESC, cstring]
  refine ⟨h, ?_, ?_, ?_⟩
  · rw [h]
    simp [clrtoeol, DRV_PUTS, ESC, cstring]
  · rw [h]
  · intro hy
    rw [h]
    exact Nat.mod_eq_of_lt (by omega)

/-- Witness of C6: newline in the static initial state (row 23, column 0). -/
theorem addch_newline_witness :
    incur_global.y < 255 ∧
    (addch 0x0a incur_global
      = (OK, { incur_global with out := incur_global.out ++ [0x1b, 0x5b, 0x4b, 0x0a], x := 0,
                                 y := (incur_global.y + 1) % 256 }) ∧
     (addch 0x0a incur_global).2.out
       = incur_global.out ++ (clrtoeol incur_global).2.out.drop incur_global.out.length
           ++ [0x0a] ∧
     (addch 0x0a incur_global).2.attr = incur_global.attr ∧
     (incur_global.y < 255 → (addch 0x0a incur_global).2.y = incur_global.y + 1)) ∧
    (addch 0x0a incur_global).2.y = 24 :=
  ⟨by decide, addch_newline incur_global, by decide⟩

/-- C7. Backspace: in column 0 `addch(0x08)` writes nothing and changes
nothing (the column stays 0); in a column above 0 it appends the single byte
`0x08` and lowers the cached column by one. Row, attribute and every other
field stay as they were, and the call returns `OK`. -/
theorem addch_backspace (s : Screen) (hx : s.x < 256) :
    (s.x = 0 → addch 0x08 s = (OK, s)) ∧
    (0 < s.x → addch 0x08 s = (OK, { s with out := s.out ++ [0x08], x := s.x - 1 })) := by
  constructor
  · intro h0
    simp [addch, h0]
  · intro hpos
    have hm : (s.x - 1) % 256 = s.x - 1 := Nat.mod_eq_of_lt (by omega)
    simp [addch, hpos, DRV_PUTC, hm]

/-- Witness of C7: backspace in column 0 and in column 2. -/
theorem addch_backspace_witness :
    (incur_global.x < 256 ∧ incur_global.x = 0 ∧ addch 0x08 incur_global = (OK, incur_global)) ∧
    ({ incur_global with x := 2 }.x < 256 ∧ 0 < { incur_global with x := 2 }.x ∧
      addch 0x08 { incur_global with x := 2 }
        = (OK, { incur_global with out := [0x08], x := 1 })) :=
  ⟨⟨by decide, by decide, (addch_backspace incur_global (by decide)).1 (by decide)⟩,
   ⟨by decide, by decide,
    (addch_backspace { incur_global with x := 2 } (by decide)).2 (by decide)⟩⟩

/-! ## `unctrl` -/

set_option maxRecDepth 100000 in
theorem unctrl_table :
    ∀ c, c < 256 →
      ((0x20 ≤ c ∧ c ≤ 0x7e → unctrl c = [c]) ∧
       (c ≤ 0x1f → unctrl c = cstring "^" ++ [c + 0x40]) ∧
       (0xa0 ≤ c ∧ c ≤ 0xfe → unctrl c = cstring "M-" ++ [c - 0x80]) ∧
       ((0x80 ≤ c ∧ c ≤ 0x9f) ∨ c = 0xff → unctrl c = cstring "~" ++ [c ^^^ 0xc0])) := by
  decide

/-- C8. `unctrl` by class of byte: printable ASCII `0x20..0x7e` gives the
character itself; C0 controls `0x00..0x1f` give `^` and the character
`c + 0x40`; bytes `0xa0..0xfe` give `M-` and the character `c - 0x80`; C1
controls `0x80..0x9f` and the byte `0xff` give `~` and the character
`c xor 0xc0`. The one byte outside these classes, DEL `0x7f`, takes the caret
branch and gives `^?`. -/
theorem unctrl_classes (c : Nat) :
    (0x20 ≤ c ∧ c ≤ 0x7e → unctrl c = [c]) ∧
    (c ≤ 0x1f → unctrl c = cstring "^" ++ [c + 0x40]) ∧
    (0xa0 ≤ c ∧ c ≤ 0xfe → unctrl c = cstring "M-" ++ [c - 0x80]) ∧
    ((0x80 ≤ c ∧ c ≤ 0x9f) ∨ c = 0xff → unctrl c = cstring "~" ++ [c ^^^ 0xc0]) ∧
    (c = 0x7f → unctrl c = cstring "^?") := by
  by_cases hc : c < 256
  · exact ⟨(unctrl_table c hc).1, (unctrl_table c hc).2.1, (unctrl_table c hc).2.2.1,
      (unctrl_table c hc).2.2.2, fun h => by subst h; decide⟩
  · refine ⟨fun h => ?_, fun h => ?_, fun h => ?_, fun h => ?_, fun h => ?_⟩ <;> omega

/-- Witness of C8: `0x41` gives `A`, `0x01` gives `^A`, `0xc1` gives `M-A` and
`0xff` gives `~?`, a tilde form different from the other three. -/
theorem unctrl_classes_witness :
    ((0x20 ≤ 0x41 ∧ 0x41 ≤ 0x7e) ∧ unctrl 0x41 = cstring "A") ∧
    (0x01 ≤ 0x1f ∧ unctrl 0x01 = cstring "^A") ∧
    ((0xa0 ≤ 0xc1 ∧ 0xc1 ≤ 0xfe) ∧ unctrl 0xc1 = cstring "M-A") ∧
    (0xff = 0xff ∧ unctrl 0xff = cstring "~?") ∧
    unctrl 0xff ≠ unctrl 0x41 ∧ unctrl 0xff ≠ unctrl 0x01 ∧ unctrl 0xff ≠ unctrl 0xc1 :=
  ⟨⟨by decide, (unctrl_classes 0x41).1 (by decide)⟩,
   ⟨by decide, (unctrl_classes 0x01).2.1 (by decide)⟩,
   ⟨by decide, (unctrl_classes 0xc1).2.2.1 (by decide)⟩,
   ⟨rfl, (unctrl_classes 0xff).2.2.2.1 (Or.inr rfl)⟩,
   by decide, by decide, by decide⟩

/-! ## Bit fields of the attribute word -/

theorem testBit_const_hi (c i : Nat) (hc : c < 2 ^ 32) (hi : 32 ≤ i) : c.testBit i = false :=
  Nat.testBit_lt_two_pow (lt_of_lt_of_le hc (Nat.pow_le_pow_right (by norm_num) hi))

theorem testBit_word_hi (w i : Nat) (hw : w < 65536) (hi : 16 ≤ i) : w.testBit i = false := by
  have hw16 : w < 2 ^ 16 := hw
  exact Nat.testBit_lt_two_pow (lt_of_lt_of_le hw16 (Nat.pow_le_pow_right (by norm_num) hi))

theorem testBit_ATTR_MASK (i : Nat) : INCURSES_ATTR_MASK.testBit i = decide (i < 8) := by
  unfold INCURSES_ATTR_MASK
  by_cases hi : i < 32
  · interval_cases i <;> rfl
  · rw [testBit_const_hi _ _ (by norm_num) (by omega)]
    simp
    omega

theorem testBit_FG_MASK (i : Nat) :
    INCURSES_FG_MASK.testBit i = (decide (8 ≤ i) && decide (i < 12)) := by
  unfold INCURSES_FG_MASK
  by_cases hi : i < 32
  · interval_cases i <;> rfl
  · rw [testBit_const_hi _ _ (by norm_num) (by omega)]
    simp
    omega

theorem testBit_BG_MASK (i : Nat) :
    INCURSES_BG_MASK.testBit i = (decide (12 ≤ i) && decide (i < 16)) := by
  unfold INCURSES_BG_MASK
  by_cases hi : i < 32
  · interval_cases i <;> rfl
  · rw [testBit_const_hi _ _ (by norm_num) (by omega)]
    simp
    omega

theorem testBit_compl_FG (i : Nat) :
    (compl32 INCURSES_FG_MASK).testBit i
      = (decide (i < 32) && !(decide (8 ≤ i) && decide (i < 12))) := by
  unfold compl32 INCURSES_FG_MASK
  by_cases hi : i < 32
  · interval_cases i <;> rfl
  · rw [testBit_const_hi _ _ (by norm_num) (by omega)]
    simp
    omega

theorem testBit_compl_BG (i : Nat) :
    (compl32 INCURSES_BG_MASK).testBit i
      = (decide (i < 32) && !(decide (12 ≤ i) && decide (i < 16))) := by
  unfold compl32 INCURSES_BG_MASK
  by_cases hi : i < 32
  · interval_cases i <;> rfl
  · rw [testBit_const_hi _ _ (by norm_num) (by omega)]
    simp
    omega

theorem testBit_mod_word (w i : Nat) :
    (w % 65536).testBit i = (decide (i < 16) && w.testBit i) :=
  Nat.testBit_mod_two_pow w 16 i

theorem bit_ranges (i : Nat) :
    (i < 8 ∧ ¬ 8 ≤ i ∧ i < 12 ∧ ¬ 12 ≤ i ∧ i < 16 ∧ i < 32) ∨
    (¬ i < 8 ∧ 8 ≤ i ∧ i < 12 ∧ ¬ 12 ≤ i ∧ i < 16 ∧ i < 32) ∨
    (¬ i < 8 ∧ 8 ≤ i ∧ ¬ i < 12 ∧ 12 ≤ i ∧ i < 16 ∧ i < 32) ∨
    (¬ i < 8 ∧ 8 ≤ i ∧ ¬ i < 12 ∧ 12 ≤ i ∧ ¬ i < 16 ∧ 16 ≤ i) := by
  omega

theorem testBit_of_and_FG_eq_zero (w i : Nat) (h : w &&& INCURSES_FG_MASK = 0)
    (h1 : 8 ≤ i) (h2 : i < 12) : w.testBit i = false := by
  have hb := congrArg (fun v => Nat.testBit v i) h
  simpa [testBit_FG_MASK, h1, h2] using hb

theorem testBit_of_and_BG_eq_zero (w i : Nat) (h : w &&& INCURSES_BG_MASK = 0)
    (h1 : 12 ≤ i) (h2 : i < 16) : w.testBit i = false := by
  have hb := congrArg (fun v => Nat.testBit v i) h
  simpa [testBit_BG_MASK, h1, h2] using hb

theorem attr_on_word_eq (base on_ : Nat) (hb : base < 65536) (ho : on_ < 65536) :
    attr_on_word base on_ = spec_mergeOnto base on_ := by
  unfold attr_on_word spec_mergeOnto
  apply Nat.eq_of_testBit_eq
  intro i
  have hbi := testBit_word_hi base i hb
  have hoi := testBit_word_hi on_ i ho
  by_cases hf : on_ &&& INCURSES_FG_MASK = 0 <;> by_cases hg : on_ &&& INCURSES_BG_MASK = 0
  all_goals
    have hfi := testBit_of_and_FG_eq_zero on_ i
    have hgi := testBit_of_and_BG_eq_zero on_ i
    simp only [hf, hg, ne_eq, not_true_eq_false, not_false_eq_true, if_true, if_false,
      Nat.testBit_and, Nat.testBit_or, testBit_mod_word, testBit_ATTR_MASK, testBit_FG_MASK,
      testBit_BG_MASK, testBit_compl_FG, testBit_compl_BG]
    rcases bit_ranges i with ⟨a1, a2, a3, a4, a5, a6⟩ | ⟨a1, a2, a3, a4, a5, a6⟩ |
      ⟨a1, a2, a3, a4, a5, a6⟩ | ⟨a1, a2, a3, a4, a5, a6⟩
    all_goals
      first
        | simp [a1, a2, a3, a4, a5, a6, hbi a6, hoi a6]
        | simp [a1, a2, a3, a4, a5, a6, hfi hf a2 a3]
        | simp [a1, a2, a3, a4, a5, a6, hgi hg a4 a5]
        | simp [a1, a2, a3, a4, a5, a6]

theorem attr_on_word_lt (base on_ : Nat) : attr_on_word base on_ < 65536 := by
  unfold attr_on_word
  simp only []
  split_ifs <;> exact Nat.mod_lt _ (by norm_num)

theorem attrset_attr (w : Nat) (s : Screen) : (attrset w s).2.attr = w := by
  by_cases h : w = s.attr
  · rw [attrset_same w s h]
    exact h.symm
  · rw [attrset_diff w s h]

theorem spec_mergeOnto_fields (base on_ : Nat) :
    spec_mergeOnto base on_ &&& INCURSES_ATTR_MASK
      = (base &&& INCURSES_ATTR_MASK) ||| (on_ &&& INCURSES_ATTR_MASK) ∧
    spec_mergeOnto base on_ &&& INCURSES_FG_MASK
      = (if on_ &&& INCURSES_FG_MASK ≠ 0 then on_ &&& INCURSES_FG_MASK
         else base &&& INCURSES_FG_MASK) ∧
    spec_mergeOnto base on_ &&& INCURSES_BG_MASK
      = (if on_ &&& INCURSES_BG_MASK ≠ 0 then on_ &&& INCURSES_BG_MASK
         else base &&& INCURSES_BG_MASK) := by
  unfold spec_mergeOnto
  refine ⟨?_, ?_, ?_⟩
  all_goals
    apply Nat.eq_of_testBit_eq
    intro i
    by_cases hf : on_ &&& INCURSES_FG_MASK = 0 <;> by_cases hg : on_ &&& INCURSES_BG_MASK = 0
    all_goals
      simp only [hf, hg, ne_eq, not_true_eq_false, not_false_eq_true, if_true, if_false,
        Nat.testBit_and, Nat.testBit_or, testBit_ATTR_MASK, testBit_FG_MASK, testBit_BG_MASK]
      rcases bit_ranges i with ⟨a1, a2, a3, a4, a5, a6⟩ | ⟨a1, a2, a3, a4, a5, a6⟩ |
        ⟨a1, a2, a3, a4, a5, a6⟩ | ⟨a1, a2, a3, a4, a5, a6⟩
      all_goals simp [a1, a2, a3, a4, a5]

/-- C10. Merge semantics of `attr_on`: for 16-bit words, `attr_on(on, opts)` is
`attrset(m)` for the word `m` whose flags byte is the OR of the cached flags
and the flags of `on`, and whose foreground and background fields are those of
`on` where non-zero and the cached ones otherwise; `m` is what the cache holds
afterwards. A flags-only `on` leaves both colour fields as cached, and every
flag bit set before is set afterwards. -/
theorem attr_on_merge (s : Screen) (on_ : Nat) (hs : s.attr < 65536) (hon : on_ < 65536) :
    attr_on on_ s = attrset (spec_mergeOnto s.attr on_) s ∧
    (attr_on on_ s).2.attr = spec_mergeOnto s.attr on_ ∧
    spec_mergeOnto s.attr on_ < 65536 ∧
    spec_mergeOnto s.attr on_ &&& INCURSES_ATTR_MASK
      = (s.attr &&& INCURSES_ATTR_MASK) ||| (on_ &&& INCURSES_ATTR_MASK) ∧
    spec_mergeOnto s.attr on_ &&& INCURSES_FG_MASK
      = (if on_ &&& INCURSES_FG_MASK ≠ 0 then on_ &&& INCURSES_FG_MASK
         else s.attr &&& INCURSES_FG_MASK) ∧
    spec_mergeOnto s.attr on_ &&& INCURSES_BG_MASK
      = (if on_ &&& INCURSES_BG_MASK ≠ 0 then on_ &&& INCURSES_BG_MASK
         else s.attr &&& INCURSES_BG_MASK) ∧
    (on_ &&& INCURSES_FG_MASK = 0 → on_ &&& INCURSES_BG_MASK = 0 →
      (attr_on on_ s).2.attr &&& INCURSES_FG_MASK = s.attr &&& INCURSES_FG_MASK ∧
      (attr_on on_ s).2.attr &&& INCURSES_BG_MASK = s.attr &&& INCURSES_BG_MASK) ∧
    (∀ i, i < 8 → s.attr.testBit i = true → ((attr_on on_ s).2.attr).testBit i = true) := by
  have hw := attr_on_word_eq s.attr on_ hs hon
  have hcall : attr_on on_ s = attrset (spec_mergeOnto s.attr on_) s := by
    unfold attr_on
    rw [hw]
  have hattr : (attr_on on_ s).2.attr = spec_mergeOnto s.attr on_ := by
    rw [hcall, attrset_attr]
  obtain ⟨hfl, hfg, hbg⟩ := spec_mergeOnto_fields s.attr on_
  refine ⟨hcall, hattr, ?_, hfl, hfg, hbg, ?_, ?_⟩
  · rw [← hw]
    exact attr_on_word_lt s.attr on_
  · intro h1 h2
    rw [hattr, hfg, hbg]
    simp [h1, h2]
  · intro i hi hbit
    have hm : (spec_mergeOnto s.attr on_ &&& INCURSES_ATTR_MASK).testBit i = true := by
      rw [hfl]
      simp [Nat.testBit_or, Nat.testBit_and, testBit_ATTR_MASK, hi, hbit]
    rw [hattr]
    rw [Nat.testBit_and] at hm
    exact (Bool.and_eq_true _ _ ▸ hm).1

/-- Witness of C10: underline and a red foreground turned on over a cached
reverse-video word with green foreground and blue background. -/
theorem attr_on_merge_witness :
    ({ incur_global with attr := 0x5302 }.attr < 65536 ∧ (0x0201 : Nat) < 65536) ∧
    spec_mergeOnto 0x5302 0x0201 = 0x5203 ∧
    attr_on 0x0201 { incur_global with attr := 0x5302 }
      = attrset (spec_mergeOnto { incur_global with attr := 0x5302 }.attr 0x0201)
          { incur_global with attr := 0x5302 } ∧
    (attr_on 0x0201 { incur_global with attr := 0x5302 }).2.attr = 0x5203 :=
  ⟨by decide, by decide,
   (attr_on_merge { incur_global with attr := 0x5302 } 0x0201 (by decide) (by decide)).1,
   by decide⟩

/-! ## A whole session -/

/-- C9. End-to-end trace from the static initial state with the all-zero pair
table: `initscr(); init_pair(1, COLOR_RED, COLOR_BLACK);
attrset(COLOR_PAIR(1)); addnstr("hi", -1); endwin()`. Every call completes and
returns success; the output is, in order, `ESC[2J ESC[1;1H` (initscr),
`ESC[0;31;40m` (attrset), `h`, `i` (addnstr), `ESC[24;1H ESC[0m ESC[K ESC[?25h
ESC[4l` (endwin), all of it flushed by the end; the cached column is 0 after
`initscr`, 1 after `h` and 2 after `i`. -/
theorem end_to_end_trace (INCURSES_ERR : Int) :
    let sA : Screen := { incur_global with
      started := true, tty_echo := false, x := 0, y := 0,
      out := cstring "\x1b[2J\x1b[1;1H" }
    let tB := init_pair INCURSES_ERR incurses_pairs 1 COLOR_RED COLOR_BLACK
    let sC : Screen := { sA with attr := 0x1200, out := sA.out ++ cstring "\x1b[0;31;40m" }
    let sD : Screen := { sC with x := 1, out := sC.out ++ cstring "h" }
    let sE : Screen := { sD with x := 2, out := sD.out ++ cstring "i" }
    let sF : Screen := { sE with
      started := false, tty_echo := true, attr := 0, x := 0, y := 23,
      out := sE.out ++ cstring "\x1b[24;1H\x1b[0m\x1b[K\x1b[?25h\x1b[4l",
      flushed := 46 }
    initscr incur_global = some (stdscr, sA) ∧
    tB.1 = OK ∧
    attrset (COLOR_PAIR tB.2 1) sA = (OK, sC) ∧
    addch 0x68 sC = (OK, sD) ∧
    addch 0x69 sD = (OK, sE) ∧
    addnstr (cstring "hi" ++ [0]) (-1) sC = some (OK, sE) ∧
    endwin sE = some (OK, sF) ∧
    sF.out = cstring
      "\x1b[2J\x1b[1;1H\x1b[0;31;40mhi\x1b[24;1H\x1b[0m\x1b[K\x1b[?25h\x1b[4l" ∧
    sF.flushed = sF.out.length := by
  intro sA tB sC sD sE sF
  have hB : tB.1 = OK := rfl
  have hP : COLOR_PAIR tB.2 1 = 0x1200 := rfl
  refine ⟨by decide, hB, ?_, by decide, by decide, by decide, by decide, by decide, by decide⟩
  rw [hP]
  decide


/-! ## The attribute word as arithmetic -/

theorem and_ATTR_MASK (w : Nat) : w &&& INCURSES_ATTR_MASK = w % 256 :=
  Nat.and_pow_two_sub_one_eq_mod w 8

theorem and_FG_MASK (w : Nat) : w &&& INCURSES_FG_MASK = 256 * (w / 256 % 16) := by
  have h : w &&& INCURSES_FG_MASK = 2 ^ 8 * (w / 2 ^ 8 % 2 ^ 4) := by
    apply Nat.eq_of_testBit_eq
    intro i
    rw [Nat.testBit_and, testBit_FG_MASK, Nat.testBit_mul_pow_two, Nat.testBit_mod_two_pow,
      ← Nat.shiftRight_eq_div_pow, Nat.testBit_shiftRight]
    by_cases h8 : 8 ≤ i
    · have e : 8 + (i - 8) = i := by omega
      rw [e]
      by_cases h12 : i < 12
      · have : i - 8 < 4 := by omega
        simp [h8, h12, this]
      · have : ¬ i - 8 < 4 := by omega
        simp [h8, h12, this]
    · simp [h8]
  simpa using h

theorem and_BG_MASK (w : Nat) : w &&& INCURSES_BG_MASK = 4096 * (w / 4096 % 16) := by
  have h : w &&& INCURSES_BG_MASK = 2 ^ 12 * (w / 2 ^ 12 % 2 ^ 4) := by
    apply Nat.eq_of_testBit_eq
    intro i
    rw [Nat.testBit_and, testBit_BG_MASK, Nat.testBit_mul_pow_two, Nat.testBit_mod_two_pow,
      ← Nat.shiftRight_eq_div_pow, Nat.testBit_shiftRight]
    by_cases h12 : 12 ≤ i
    · have e : 12 + (i - 12) = i := by omega
      rw [e]
      by_cases h16 : i < 16
      · have : i - 12 < 4 := by omega
        simp [h12, h16, this]
      · have : ¬ i - 12 < 4 := by omega
        simp [h12, h16, this]
    · simp [h12]
  simpa using h

theorem fg_field_eq (w : Nat) :
    (w &&& INCURSES_FG_MASK) >>> INCURSES_FG_SHIFT = w / 256 % 16 := by
  rw [and_FG_MASK]
  unfold INCURSES_FG_SHIFT
  rw [Nat.shiftRight_eq_div_pow]
  omega

theorem bg_field_eq (w : Nat) :
    (w &&& INCURSES_BG_MASK) >>> INCURSES_BG_SHIFT = w / 4096 % 16 := by
  rw [and_BG_MASK]
  unfold INCURSES_BG_SHIFT
  rw [Nat.shiftRight_eq_div_pow]
  omega

theorem attrset_bytes_eq_spec (w : Nat) : attrset_bytes w = spec_rebuild w := by
  have hf := fg_field_eq w
  have hb := bg_field_eq w
  have hfm := and_FG_MASK w
  have hbm := and_BG_MASK w
  have hfd : w &&& INCURSES_FG_MASK ≠ 0 →
      ((48 + GET_FG w) % 256).toNat = 48 + (w / 256 % 16 - 1) := by
    intro h
    unfold GET_FG
    rw [hf]
    omega
  have hbd : w &&& INCURSES_BG_MASK ≠ 0 →
      ((48 + GET_BG w) % 256).toNat = 48 + (w / 4096 % 16 - 1) := by
    intro h
    unfold GET_BG
    rw [hb]
    omega
  unfold attrset_bytes spec_rebuild
  simp only [hf, hb]
  have hm : cstring "m" = [109] := rfl
  rw [hm]
  by_cases h1 : w &&& INCURSES_FG_MASK ≠ 0 <;> by_cases h2 : w &&& INCURSES_BG_MASK ≠ 0
  · have k1 : w / 256 % 16 ≠ 0 := by omega
    have k2 : w / 4096 % 16 ≠ 0 := by omega
    simp only [h1, h2, k1, k2, hfd h1, hbd h2, ne_eq, not_false_eq_true, if_true]
  · have k1 : w / 256 % 16 ≠ 0 := by omega
    have k2 : ¬ w / 4096 % 16 ≠ 0 := by omega
    simp only [h1, h2, k1, k2, hfd h1, ne_eq, not_false_eq_true, if_true, if_false]
  · have k1 : ¬ w / 256 % 16 ≠ 0 := by omega
    have k2 : w / 4096 % 16 ≠ 0 := by omega
    simp only [h1, h2, k1, k2, hbd h2, ne_eq, not_false_eq_true, if_true, if_false]
  · have k1 : ¬ w / 256 % 16 ≠ 0 := by omega
    have k2 : ¬ w / 4096 % 16 ≠ 0 := by omega
    simp only [h1, h2, k1, k2, ne_eq, not_false_eq_true, if_true, if_false]

/-- C11. Attribute rebuild wire format: a word `w` that differs from the cached
attribute and whose colour fields are 0 (unset) or in 1..8 makes `attrset`
return `OK`, append exactly `ESC [ 0`, then `;3` and the digit of
(foreground field - 1) if that field is non-zero, then `;4` and the digit of
(background field - 1) if that field is non-zero, then `;4` if underline is
set, then `;7` if reverse is set, then `m`, and cache `w`. Each colour digit is
in `'0'..'7'`. The bytes depend on `w` alone, not on the word cached before. -/
theorem attrset_wire_format (s : Screen) (w : Nat) (hne : w ≠ s.attr)
    (hfg : (w &&& INCURSES_FG_MASK) >>> INCURSES_FG_SHIFT ≤ 8)
    (hbg : (w &&& INCURSES_BG_MASK) >>> INCURSES_BG_SHIFT ≤ 8) :
    attrset w s = (OK, { s with out := s.out ++ spec_rebuild w, attr := w }) ∧
    ((w &&& INCURSES_FG_MASK) >>> INCURSES_FG_SHIFT ≠ 0 →
      48 ≤ 48 + ((w &&& INCURSES_FG_MASK) >>> INCURSES_FG_SHIFT - 1) ∧
      48 + ((w &&& INCURSES_FG_MASK) >>> INCURSES_FG_SHIFT - 1) ≤ 55) ∧
    ((w &&& INCURSES_BG_MASK) >>> INCURSES_BG_SHIFT ≠ 0 →
      48 ≤ 48 + ((w &&& INCURSES_BG_MASK) >>> INCURSES_BG_SHIFT - 1) ∧
      48 + ((w &&& INCURSES_BG_MASK) >>> INCURSES_BG_SHIFT - 1) ≤ 55) ∧
    (∀ s2 : Screen, w ≠ s2.attr →
      (attrset w s2).2.out.drop s2.out.length = (attrset w s).2.out.drop s.out.length) := by
  refine ⟨?_, ?_, ?_, ?_⟩
  · rw [attrset_diff w s hne, attrset_bytes_eq_spec]
  · intro _
    omega
  · intro _
    omega
  · intro s2 h2
    rw [attrset_diff w s hne, attrset_diff w s2 h2]
    simp

/-- Witness of C11: red on black with underline and reverse, over the static
initial state: the bytes are `ESC[0;31;40;4;7m`. -/
theorem attrset_wire_format_witness :
    ((0x1203 : Nat) ≠ incur_global.attr ∧
      ((0x1203 : Nat) &&& INCURSES_FG_MASK) >>> INCURSES_FG_SHIFT ≤ 8 ∧
      ((0x1203 : Nat) &&& INCURSES_BG_MASK) >>> INCURSES_BG_SHIFT ≤ 8) ∧
    attrset 0x1203 incur_global
      = (OK, { incur_global with out := incur_global.out ++ spec_rebuild 0x1203,
                                 attr := 0x1203 }) ∧
    spec_rebuild 0x1203 = cstring "\x1b[0;31;40;4;7m" :=
  ⟨by decide,
   (attrset_wire_format incur_global 0x1203 (by decide) (by decide) (by decide)).1,
   by decide⟩

theorem colour_flags_word (fg bg f : Nat) (hfg : fg < 8) (hbg : bg < 8) (hf : f ≤ 0xff) :
    INCURSES_FG fg ||| INCURSES_BG bg ||| f = 256 * (fg + 1) + 4096 * (bg + 1) + f := by
  have h2 : f < 2 ^ 8 := by
    have : (2 : Nat) ^ 8 = 256 := by norm_num
    omega
  have e : 256 * (fg + 1) + 4096 * (bg + 1) = 2 ^ 8 * ((fg + 1) + 16 * (bg + 1)) := by
    have : (2 : Nat) ^ 8 = 256 := by norm_num
    omega
  rw [colour_word_eq fg bg hfg hbg, e, ← Nat.mul_add_lt_is_or h2]

/-- C13. Pack/unpack round trip of the attribute word: for colours below 8 and
a flags byte `f ≤ 0xff`, the word `w = INCURSES_FG(fg) | INCURSES_BG(bg) | f`
fits in 16 bits, `GET_FG(w) = fg`, `GET_BG(w) = bg` and
`w & INCURSES_ATTR_MASK = f`. The three fields occupy disjoint bits (the masks
`0x00ff`, `0x0f00`, `0xf000` are pairwise disjoint and each field of `w` is the
part that was packed), and both colour fields of `w` are non-zero. -/
theorem pack_unpack_roundtrip (fg bg f : Nat) (hfg : fg < 8) (hbg : bg < 8) (hf : f ≤ 0xff) :
    INCURSES_FG fg ||| INCURSES_BG bg ||| f < 65536 ∧
    GET_FG (INCURSES_FG fg ||| INCURSES_BG bg ||| f) = (fg : Int) ∧
    GET_BG (INCURSES_FG fg ||| INCURSES_BG bg ||| f) = (bg : Int) ∧
    (INCURSES_FG fg ||| INCURSES_BG bg ||| f) &&& INCURSES_ATTR_MASK = f ∧
    (INCURSES_FG fg ||| INCURSES_BG bg ||| f) &&& INCURSES_FG_MASK = INCURSES_FG fg ∧
    (INCURSES_FG fg ||| INCURSES_BG bg ||| f) &&& INCURSES_BG_MASK = INCURSES_BG bg ∧
    (INCURSES_ATTR_MASK &&& INCURSES_FG_MASK = 0 ∧
      INCURSES_ATTR_MASK &&& INCURSES_BG_MASK = 0 ∧
      INCURSES_FG_MASK &&& INCURSES_BG_MASK = 0 ∧
      INCURSES_ATTR_MASK ||| INCURSES_FG_MASK ||| INCURSES_BG_MASK = 0xffff) ∧
    (INCURSES_FG fg ||| INCURSES_BG bg ||| f) &&& INCURSES_FG_MASK ≠ 0 ∧
    (INCURSES_FG fg ||| INCURSES_BG bg ||| f) &&& INCURSES_BG_MASK ≠ 0 := by
  have hw := colour_flags_word fg bg f hfg hbg hf
  have hF : INCURSES_FG fg = 256 * (fg + 1) := by
    unfold INCURSES_FG INCURSES_FG_SHIFT
    rw [Nat.shiftLeft_eq]
    omega
  have hB : INCURSES_BG bg = 4096 * (bg + 1) := by
    unfold INCURSES_BG INCURSES_BG_SHIFT
    rw [Nat.shiftLeft_eq]
    omega
  have hf256 : f < 256 := by omega
  have ha := and_ATTR_MASK (INCURSES_FG fg ||| INCURSES_BG bg ||| f)
  have hfm := and_FG_MASK (INCURSES_FG fg ||| INCURSES_BG bg ||| f)
  have hbm := and_BG_MASK (INCURSES_FG fg ||| INCURSES_BG bg ||| f)
  have hff := fg_field_eq (INCURSES_FG fg ||| INCURSES_BG bg ||| f)
  have hbf := bg_field_eq (INCURSES_FG fg ||| INCURSES_BG bg ||| f)
  refine ⟨by omega, ?_, ?_, by omega, by omega, by omega,
    ⟨by decide, by decide, by decide, by decide⟩, by omega, by omega⟩
  · unfold GET_FG
    rw [hff]
    omega
  · unfold GET_BG
    rw [hbf]
    omega

/-- Witness of C13: white on blue with underline and reverse, `0x5803`. -/
theorem pack_unpack_roundtrip_witness :
    (COLOR_WHITE < 8 ∧ COLOR_BLUE < 8 ∧ (3 : Nat) ≤ 0xff) ∧
    INCURSES_FG COLOR_WHITE ||| INCURSES_BG COLOR_BLUE ||| 3 = 0x5803 ∧
    GET_FG (INCURSES_FG COLOR_WHITE ||| INCURSES_BG COLOR_BLUE ||| 3) = (COLOR_WHITE : Int) ∧
    GET_BG (INCURSES_FG COLOR_WHITE ||| INCURSES_BG COLOR_BLUE ||| 3) = (COLOR_BLUE : Int) :=
  ⟨by decide, by decide,
   (pack_unpack_roundtrip COLOR_WHITE COLOR_BLUE 3 (by decide) (by decide) (by decide)).2.1,
   (pack_unpack_roundtrip COLOR_WHITE COLOR_BLUE 3 (by decide) (by decide) (by decide)).2.2.1⟩

/-! ## The rebuild sequence determines the word -/

theorem rebuild_decode_table :
    ∀ fl, fl < 4 → ∀ f, f < 9 → ∀ b, b < 9 →
      rebuild_decode (attrset_bytes (fl + 256 * f + 4096 * b)) = fl + 256 * f + 4096 * b := by
  decide

theorem rebuild_decode_attrset_bytes (w : Nat) (hw : w < 65536)
    (hfl : w &&& INCURSES_ATTR_MASK ≤ A_UNDERLINE ||| A_REVERSE)
    (hfg : (w &&& INCURSES_FG_MASK) >>> INCURSES_FG_SHIFT ≤ 8)
    (hbg : (w &&& INCURSES_BG_MASK) >>> INCURSES_BG_SHIFT ≤ 8) :
    rebuild_decode (attrset_bytes w) = w := by
  rw [and_ATTR_MASK] at hfl
  rw [fg_field_eq] at hfg
  rw [bg_field_eq] at hbg
  have h3 : A_UNDERLINE ||| A_REVERSE = 3 := by decide
  rw [h3] at hfl
  have hdec : w = w % 256 + 256 * (w / 256 % 16) + 4096 * (w / 4096 % 16) := by omega
  have ht := rebuild_decode_table (w % 256) (by omega) (w / 256 % 16) (by omega)
    (w / 4096 % 16) (by omega)
  rw [← hdec] at ht
  exact ht

/-- C20. The attribute rebuild sequence determines the attribute word, although
underline and background both start with `;4`: for 16-bit words whose colour
fields are each in 0..8 and whose flags byte has only the underline and
reverse bits (so is at most `A_UNDERLINE | A_REVERSE`), equal byte sequences
(as written by `attrset` on a state caching a different word, which are
`attrset_bytes`) come from equal words. -/
theorem attrset_bytes_determine_word (s : Screen) (w1 w2 : Nat)
    (h1 : w1 < 65536) (h2 : w2 < 65536)
    (hfl1 : w1 &&& INCURSES_ATTR_MASK ≤ A_UNDERLINE ||| A_REVERSE)
    (hfl2 : w2 &&& INCURSES_ATTR_MASK ≤ A_UNDERLINE ||| A_REVERSE)
    (hfg1 : (w1 &&& INCURSES_FG_MASK) >>> INCURSES_FG_SHIFT ≤ 8)
    (hfg2 : (w2 &&& INCURSES_FG_MASK) >>> INCURSES_FG_SHIFT ≤ 8)
    (hbg1 : (w1 &&& INCURSES_BG_MASK) >>> INCURSES_BG_SHIFT ≤ 8)
    (hbg2 : (w2 &&& INCURSES_BG_MASK) >>> INCURSES_BG_SHIFT ≤ 8) :
    (attrset_bytes w1 = attrset_bytes w2 → w1 = w2) ∧
    (w1 ≠ s.attr → w2 ≠ s.attr → (attrset w1 s).2.out = (attrset w2 s).2.out → w1 = w2) := by
  have key : attrset_bytes w1 = attrset_bytes w2 → w1 = w2 := by
    intro h
    have d1 := rebuild_decode_attrset_bytes w1 h1 hfl1 hfg1 hbg1
    have d2 := rebuild_decode_attrset_bytes w2 h2 hfl2 hfg2 hbg2
    rw [h] at d1
    rw [← d1, d2]
  refine ⟨key, ?_⟩
  intro n1 n2 hout
  rw [attrset_diff w1 s n1, attrset_diff w2 s n2] at hout
  exact key (List.append_cancel_left hout)

/-- Witness of C20: blue background without underline (`0x5000`, bytes
`ESC[0;44m`) against underline without background (`0x0001`, bytes
`ESC[0;4m`): both words are in the domain and their sequences differ. -/
theorem attrset_bytes_determine_word_witness :
    ((0x5000 : Nat) < 65536 ∧ (0x0001 : Nat) < 65536) ∧
    attrset_bytes 0x5000 = cstring "\x1b[0;44m" ∧
    attrset_bytes 0x0001 = cstring "\x1b[0;4m" ∧
    (attrset_bytes 0x5000 = attrset_bytes 0x0001 → (0x5000 : Nat) = 0x0001) :=
  ⟨by decide, by decide, by decide,
   (attrset_bytes_determine_word incur_global 0x5000 0x0001 (by decide) (by decide)
      (by decide) (by decide) (by decide) (by decide) (by decide) (by decide)).1⟩

/-! ## Cursor positioning and the session calls -/

theorem fmt_u_eq_decimal : ∀ n, n < 100 → fmt_u n = spec_decimal n := by
  decide

theorem move_same (y x : Int) (s : Screen) (h : x = (s.x : Int) ∧ y = (s.y : Int)) :
    move y x s = some (OK, s) := by
  unfold move
  simp only [h, and_self, not_true_eq_false, if_false]

theorem move_diff (y x : Nat) (s : Screen) (h : ¬ ((x : Int) = (s.x : Int) ∧ (y : Int) = (s.y : Int)))
    (hy : y ≤ 255) (hx : x ≤ 255) (hfit : y < 99 ∨ x < 99) :
    move (y : Int) (x : Int) s
      = some (OK, { s with x := x, y := y, out := s.out ++ move_cmd y x }) := by
  have hxs : (((x : Int) % 256).toNat) = x := by omega
  have hys : (((y : Int) % 256).toNat) = y := by omega
  unfold move
  simp only [h, not_false_eq_true, if_true, _move_eq, toUnsigned_natCast y (by omega),
    toUnsigned_natCast x (by omega), move_cmd_fits y x hy hx hfit, Option.map_some', hxs, hys,
    DRV_PUTS]

theorem move_cmd_length_on_screen (row col : Nat) (hrow : row < 24) (hcol : col < 80) :
    (move_cmd row col).length ≤ 8 := by
  have h1 : (row + 1) % 4294967296 = row + 1 := Nat.mod_eq_of_lt (by omega)
  have h2 : (col + 1) % 4294967296 = col + 1 := Nat.mod_eq_of_lt (by omega)
  have l1 := fmt_u_length_two (row + 1) (by omega)
  have l2 := fmt_u_length_two (col + 1) (by omega)
  have e1 : ("[" : String).data.length = 1 := rfl
  have e2 : (";" : String).data.length = 1 := rfl
  have e3 : ("H" : String).data.length = 1 := rfl
  simp only [move_cmd, h1, h2, ESC, cstring, List.length_append, List.length_cons,
    List.length_nil, List.length_map, String.toList]
  omega

theorem move_cmd_on_screen (row col : Nat) (hrow : row < 24) (hcol : col < 80) :
    move_cmd row col
      = ESC ++ cstring "[" ++ spec_decimal (row + 1) ++ cstring ";" ++ spec_decimal (col + 1)
          ++ cstring "H" := by
  have h1 : (row + 1) % 4294967296 = row + 1 := Nat.mod_eq_of_lt (by omega)
  have h2 : (col + 1) % 4294967296 = col + 1 := Nat.mod_eq_of_lt (by omega)
  unfold move_cmd
  rw [h1, h2, fmt_u_eq_decimal (row + 1) (by omega), fmt_u_eq_decimal (col + 1) (by omega)]

/-- C12. Cursor positioning on the 24 x 80 screen: `move(row, col)` with
`row < 24`, `col < 80` returns `OK`; if `(row, col)` is the cached cursor it
writes nothing and changes nothing; otherwise it appends exactly
`ESC [ decimal(row+1) ; decimal(col+1) H`, at most 8 bytes (so the text and its
terminator fit the 10-byte `cmd`), and caches `(row, col)`. The cached
attribute is never changed. -/
theorem move_on_screen (s : Screen) (row col : Nat) (hrow : row < 24) (hcol : col < 80) :
    (col = s.x ∧ row = s.y → move (row : Int) (col : Int) s = some (OK, s)) ∧
    (¬ (col = s.x ∧ row = s.y) →
      move (row : Int) (col : Int) s
        = some (OK, { s with x := col, y := row,
                             out := s.out ++ (ESC ++ cstring "[" ++ spec_decimal (row + 1)
                               ++ cstring ";" ++ spec_decimal (col + 1) ++ cstring "H") })) ∧
    (ESC ++ cstring "[" ++ spec_decimal (row + 1) ++ cstring ";" ++ spec_decimal (col + 1)
        ++ cstring "H").length ≤ 8 ∧
    (∃ s1, move (row : Int) (col : Int) s = some (OK, s1) ∧ s1.attr = s.attr) := by
  have hcmd := move_cmd_on_screen row col hrow hcol
  have hsame : col = s.x ∧ row = s.y → move (row : Int) (col : Int) s = some (OK, s) := by
    intro h
    exact move_same _ _ s ⟨by exact_mod_cast h.1, by exact_mod_cast h.2⟩
  have hdiff : ¬ (col = s.x ∧ row = s.y) →
      move (row : Int) (col : Int) s
        = some (OK, { s with x := col, y := row, out := s.out ++ move_cmd row col }) := by
    intro h
    have h2 : ¬ ((col : Int) = (s.x : Int) ∧ (row : Int) = (s.y : Int)) := by
      intro hc
      exact h ⟨by exact_mod_cast hc.1, by exact_mod_cast hc.2⟩
    exact move_diff row col s h2 (by omega) (by omega) (by omega)
  refine ⟨hsame, ?_, ?_, ?_⟩
  · intro h
    rw [hdiff h, hcmd]
  · rw [← hcmd]
    exact move_cmd_length_on_screen row col hrow hcol
  · by_cases h : col = s.x ∧ row = s.y
    · exact ⟨s, hsame h, rfl⟩
    · exact ⟨_, hdiff h, rfl⟩

/-- Witness of C12: `move(11, 39)` from the static initial state writes
`ESC[12;40H`; repeated on the result it is the no-output case. -/
theorem move_on_screen_witness :
    ((11 : Nat) < 24 ∧ (39 : Nat) < 80 ∧ ¬ (39 = incur_global.x ∧ 11 = incur_global.y)) ∧
    move ((11 : Nat) : Int) ((39 : Nat) : Int) incur_global
      = some (OK, { incur_global with
          x := 39, y := 11,
          out := incur_global.out ++ (ESC ++ cstring "[" ++ spec_decimal (11 + 1)
            ++ cstring ";" ++ spec_decimal (39 + 1) ++ cstring "H") }) ∧
    ESC ++ cstring "[" ++ spec_decimal (11 + 1) ++ cstring ";" ++ spec_decimal (39 + 1)
        ++ cstring "H" = cstring "\x1b[12;40H" :=
  ⟨by decide,
   (move_on_screen incur_global 11 39 (by decide) (by decide)).2.1 (by decide),
   by decide⟩

/-! ## Invariant of the colour-pair table -/

theorem init_pair_preserves (INCURSES_ERR : Int) (t : PairTable) (pair fg bg : Nat)
    (h0 : t 0 = 0)
    (hs : ∀ i : Fin 16, t i = 0 ∨
      ∃ f b, f < 8 ∧ b < 8 ∧ t i = INCURSES_FG f ||| INCURSES_BG b) :
    (init_pair INCURSES_ERR t pair fg bg).2 0 = 0 ∧
    ∀ i : Fin 16, (init_pair INCURSES_ERR t pair fg bg).2 i = 0 ∨
      ∃ f b, f < 8 ∧ b < 8 ∧
        (init_pair INCURSES_ERR t pair fg bg).2 i = INCURSES_FG f ||| INCURSES_BG b := by
  unfold init_pair
  by_cases hg1 : pair = 0 ∨ pair ≥ COLOR_PAIRS
  · simp only [hg1, if_true]
    exact ⟨h0, hs⟩
  · by_cases hg2 : fg ≥ 8 ∨ bg ≥ 8
    · simp only [hg1, hg2, if_true, if_false]
      exact ⟨h0, hs⟩
    · simp only [hg1, hg2, if_false]
      have hfg : fg < 8 := by omega
      have hbg : bg < 8 := by omega
      have hw := colour_word_eq fg bg hfg hbg
      have hmod : (INCURSES_FG fg ||| INCURSES_BG bg) % 65536
          = INCURSES_FG fg ||| INCURSES_BG bg := Nat.mod_eq_of_lt (by omega)
      have hp : ¬ ((0 : Fin 16).val = pair) := by
        intro e
        apply hg1
        left
        rw [← e]
        rfl
      refine ⟨?_, ?_⟩
      · simp only [hp, if_false]
        exact h0
      · intro i
        by_cases hi : i.val = pair
        · right
          exact ⟨fg, bg, hfg, hbg, by simp only [hi, if_true, hmod]⟩
        · simp only [hi, if_false]
          exact hs i

theorem init_pair_calls_preserve (INCURSES_ERR : Int) (calls : List (Nat × Nat × Nat)) :
    ∀ t : PairTable, t 0 = 0 →
      (∀ i : Fin 16, t i = 0 ∨ ∃ f b, f < 8 ∧ b < 8 ∧ t i = INCURSES_FG f ||| INCURSES_BG b) →
      (init_pair_calls INCURSES_ERR t calls) 0 = 0 ∧
      ∀ i : Fin 16, (init_pair_calls INCURSES_ERR t calls) i = 0 ∨
        ∃ f b, f < 8 ∧ b < 8 ∧
          (init_pair_calls INCURSES_ERR t calls) i = INCURSES_FG f ||| INCURSES_BG b := by
  induction calls with
  | nil =>
    intro t h0 hs
    exact ⟨h0, hs⟩
  | cons call rest ih =>
    intro t h0 hs
    obtain ⟨pair, fg, bg⟩ := call
    have hstep := init_pair_preserves INCURSES_ERR t pair fg bg h0 hs
    exact ih _ hstep.1 hstep.2

/-- C14. Invariant of the colour-pair table: after any finite sequence of
`init_pair` calls on the all-zero static table, with arbitrary arguments, slot
0 holds 0 and every slot holds 0 or a word `INCURSES_FG(fg) | INCURSES_BG(bg)`
with `fg, bg < 8`, whose flags byte is zero. So `COLOR_PAIR(0)` is 0, and
`COLOR_PAIR(id)` is 0 for every `id ≥ 16` of an `unsigned` (and for every
negative `int`, which the cast makes large). -/
theorem pair_table_invariant (INCURSES_ERR : Int) (calls : List (Nat × Nat × Nat)) :
    (init_pair_calls INCURSES_ERR incurses_pairs calls) 0 = 0 ∧
    (∀ i : Fin 16, (init_pair_calls INCURSES_ERR incurses_pairs calls) i = 0 ∨
      ∃ fg bg, fg < 8 ∧ bg < 8 ∧
        (init_pair_calls INCURSES_ERR incurses_pairs calls) i
          = INCURSES_FG fg ||| INCURSES_BG bg ∧
        (init_pair_calls INCURSES_ERR incurses_pairs calls) i &&& INCURSES_ATTR_MASK = 0) ∧
    COLOR_PAIR (init_pair_calls INCURSES_ERR incurses_pairs calls) 0 = 0 ∧
    (∀ id : Int, 16 ≤ id → id < 4294967296 →
      COLOR_PAIR (init_pair_calls INCURSES_ERR incurses_pairs calls) id = 0) ∧
    (∀ id : Int, -2147483648 ≤ id → id < 0 →
      COLOR_PAIR (init_pair_calls INCURSES_ERR incurses_pairs calls) id = 0) := by
  have hinv := init_pair_calls_preserve INCURSES_ERR calls incurses_pairs rfl
    (fun _ => Or.inl rfl)
  refine ⟨hinv.1, ?_, ?_, ?_, ?_⟩
  · intro i
    rcases hinv.2 i with h | ⟨f, b, hf, hb, h⟩
    · exact Or.inl h
    · right
      refine ⟨f, b, hf, hb, h, ?_⟩
      have hw := colour_word_eq f b hf hb
      rw [h, and_ATTR_MASK]
      omega
  · have h := COLOR_PAIR_natCast (init_pair_calls INCURSES_ERR incurses_pairs calls) 0
      (by omega)
    simp only [Nat.cast_zero] at h
    rw [h]
    exact hinv.1
  · intro id h16 hlt
    have hu : ¬ toUnsigned id < 16 := by
      unfold toUnsigned
      omega
    unfold COLOR_PAIR
    simp only [hu, dite_false]
  · intro id hlo hneg
    have hu : ¬ toUnsigned id < 16 := by
      unfold toUnsigned
      omega
    unfold COLOR_PAIR
    simp only [hu, dite_false]

/-- Witness of C14: four calls, one valid (pair 1, red on black) and three
failing (pair 0, pair 16, colour 9); afterwards slot 1 holds `0x1200`, and
`COLOR_PAIR` of 0, 16 and -1 is 0. -/
theorem pair_table_invariant_witness :
    ((16 : Int) ≤ 16 ∧ (16 : Int) < 4294967296 ∧ (-2147483648 : Int) ≤ -1 ∧ (-1 : Int) < 0) ∧
    (init_pair_calls 1 incurses_pairs [(1, 1, 0), (0, 3, 3), (16, 1, 1), (2, 9, 0)]) 1 = 0x1200 ∧
    COLOR_PAIR (init_pair_calls 1 incurses_pairs [(1, 1, 0), (0, 3, 3), (16, 1, 1), (2, 9, 0)]) 0
      = 0 ∧
    COLOR_PAIR (init_pair_calls 1 incurses_pairs [(1, 1, 0), (0, 3, 3), (16, 1, 1), (2, 9, 0)]) 16
      = 0 ∧
    COLOR_PAIR (init_pair_calls 1 incurses_pairs [(1, 1, 0), (0, 3, 3), (16, 1, 1), (2, 9, 0)]) (-1)
      = 0 :=
  ⟨by decide, by decide,
   (pair_table_invariant 1 [(1, 1, 0), (0, 3, 3), (16, 1, 1), (2, 9, 0)]).2.2.1,
   (pair_table_invariant 1 [(1, 1, 0), (0, 3, 3), (16, 1, 1), (2, 9, 0)]).2.2.2.1 16
     (by decide) (by decide),
   (pair_table_invariant 1 [(1, 1, 0), (0, 3, 3), (16, 1, 1), (2, 9, 0)]).2.2.2.2 (-1)
     (by decide) (by decide)⟩

theorem attrset_normal (s : Screen) :
    attrset A_NORMAL s
      = (OK, { s with attr := A_NORMAL,
                      out := s.out ++ (if s.attr ≠ 0 then cstring "\x1b[0m" else []) }) := by
  by_cases h : s.attr = 0
  · rw [attrset_same A_NORMAL s (by rw [h]; rfl)]
    cases s
    simp_all [A_NORMAL]
  · have hne : A_NORMAL ≠ s.attr := fun e => h (by rw [← e]; rfl)
    have hb : attrset_bytes A_NORMAL = cstring "\x1b[0m" := by decide
    rw [attrset_diff A_NORMAL s hne, hb]
    simp [h]

theorem move_to (y x : Nat) (s : Screen) (hy : y ≤ 255) (hx : x ≤ 255) (hfit : y < 99 ∨ x < 99) :
    move (y : Int) (x : Int) s
      = some (OK, { s with x := x, y := y,
                           out := s.out ++ (if ¬ (s.x = x ∧ s.y = y) then move_cmd y x else []) }) := by
  by_cases h : s.x = x ∧ s.y = y
  · rw [move_same _ _ s ⟨by exact_mod_cast h.1.symm, by exact_mod_cast h.2.symm⟩]
    cases s
    simp_all
  · have h2 : ¬ ((x : Int) = (s.x : Int) ∧ (y : Int) = (s.y : Int)) := by
      intro hc
      exact h ⟨by exact_mod_cast hc.1.symm, by exact_mod_cast hc.2.symm⟩
    rw [move_diff y x s h2 hy hx hfit]
    simp [h]

/-- C15. Postcondition of `initscr`: from every state it completes and returns
`stdscr`; afterwards the cached attribute is `A_NORMAL`, the cached cursor is
row 0, column 0 and `started` is true (local echo of the terminal is off). The
bytes it appends are, in order, `ESC[0m` exactly when the cached attribute was
non-zero, `ESC[2J` always, and `ESC[1;1H` exactly when the cached cursor was
not (0, 0). -/
theorem initscr_postcondition (s : Screen) :
    initscr s
      = some (stdscr, { s with
          started := true, tty_echo := false, attr := A_NORMAL, x := 0, y := 0,
          out := s.out ++ (if s.attr ≠ 0 then cstring "\x1b[0m" else [])
            ++ cstring "\x1b[2J"
            ++ (if ¬ (s.x = 0 ∧ s.y = 0) then cstring "\x1b[1;1H" else []) }) := by
  have hc : move_cmd 0 0 = cstring "\x1b[1;1H" := by decide
  have hm := fun t => move_to 0 0 t (by omega) (by omega) (by omega)
  simp only [Nat.cast_zero] at hm
  unfold initscr
  simp only [attrset_normal, clear, DRV_ECHO, DRV_PUTS, hm, hc, Option.map_some',
    List.append_assoc]
  rfl


/-- C16. Postcondition of `endwin`: from every state it completes and returns
`OK`; the bytes it appends are, in order, `ESC[24;1H` exactly when the cached
cursor was not (row 23, column 0), `ESC[0m` exactly when the cached attribute
was non-zero, then always `ESC[K`, `ESC[?25h`, `ESC[4l`, all flushed;
afterwards `started` is false (local echo of the terminal is on again) and the
cached cursor (23, 0) and attribute 0 are those of the static initial state. -/
theorem endwin_postcondition (s : Screen) :
    endwin s
      = some (OK, { s with
          started := false, tty_echo := true, attr := A_NORMAL, x := 0, y := 23,
          out := s.out ++ (if ¬ (s.x = 0 ∧ s.y = 23) then cstring "\x1b[24;1H" else [])
            ++ (if s.attr ≠ 0 then cstring "\x1b[0m" else [])
            ++ cstring "\x1b[K" ++ cstring "\x1b[?25h" ++ cstring "\x1b[4l",
          flushed := (s.out ++ (if ¬ (s.x = 0 ∧ s.y = 23) then cstring "\x1b[24;1H" else [])
            ++ (if s.attr ≠ 0 then cstring "\x1b[0m" else [])
            ++ cstring "\x1b[K" ++ cstring "\x1b[?25h" ++ cstring "\x1b[4l").length }) ∧
    (incur_global.x = 0 ∧ incur_global.y = 23 ∧ incur_global.attr = A_NORMAL ∧
      incur_global.started = false) := by
  have hc : move_cmd 23 0 = cstring "\x1b[24;1H" := by decide
  have hm := fun t => move_to 23 0 t (by omega) (by omega) (by omega)
  have hl : ((LINES - 1 : Nat) : Int) = ((23 : Nat) : Int) := rfl
  refine ⟨?_, by decide⟩
  unfold endwin
  simp only [hl, Nat.cast_zero] at hm ⊢
  simp only [attrset_normal, clrtoeol, curs_set, refresh, DRV_ECHO, DRV_PUTS, DRV_FLUSH, hm, hc,
    Option.map_some', List.append_assoc, if_true]
  rfl

/-! ## Uncached operations and character classes -/

/-- C18. The fixed-sequence operations are not cached and leave the cache
alone: `clear` appends `ESC[2J`, `clrtoeol` appends `ESC[K`, `curs_set(true)`
appends `ESC[?25h`, `curs_set(false)` appends `ESC[?25l`, `refresh` appends
nothing (it only flushes); each returns `OK`, does the same again when
repeated, and leaves cursor, attribute and flags as they were. So with the
cached cursor at (0, 0), `clear` followed by `move(0, 0)` appends only
`ESC[2J`: the move is a no-op. -/
theorem uncached_operations (s : Screen) :
    clear s = (OK, { s with out := s.out ++ cstring "\x1b[2J" }) ∧
    clrtoeol s = (OK, { s with out := s.out ++ cstring "\x1b[K" }) ∧
    curs_set true s = (OK, { s with out := s.out ++ cstring "\x1b[?25h" }) ∧
    curs_set false s = (OK, { s with out := s.out ++ cstring "\x1b[?25l" }) ∧
    refresh s = (OK, { s with flushed := s.out.length }) ∧
    (clear (clear s).2).2.out = s.out ++ cstring "\x1b[2J" ++ cstring "\x1b[2J" ∧
    (clrtoeol (clrtoeol s).2).2.out = s.out ++ cstring "\x1b[K" ++ cstring "\x1b[K" ∧
    (curs_set true (curs_set true s).2).2.out
      = s.out ++ cstring "\x1b[?25h" ++ cstring "\x1b[?25h" ∧
    (curs_set false (curs_set false s).2).2.out
      = s.out ++ cstring "\x1b[?25l" ++ cstring "\x1b[?25l" ∧
    (refresh (refresh s).2).2.out = s.out ∧
    (s.x = 0 ∧ s.y = 0 →
      move 0 0 (clear s).2 = some (OK, { s with out := s.out ++ cstring "\x1b[2J" })) := by
  refine ⟨rfl, rfl, rfl, rfl, rfl, rfl, rfl, rfl, rfl, rfl, ?_⟩
  · intro h
    have hs : clear s = (OK, { s with out := s.out ++ cstring "\x1b[2J" }) := rfl
    rw [hs]
    exact move_same 0 0 _ ⟨by simp [h.1], by simp [h.2]⟩

/-- Witness of C18: in the state reached by `initscr` from the static initial
state (cursor cached at (0, 0)), `clear` then `move(0, 0)` appends `ESC[2J`
and nothing else. -/
theorem uncached_operations_witness :
    ({ incur_global with y := 0 }.x = 0 ∧ { incur_global with y := 0 }.y = 0) ∧
    move 0 0 (clear { incur_global with y := 0 }).2
      = some (OK, { incur_global with y := 0, out := cstring "\x1b[2J" }) :=
  ⟨by decide, (uncached_operations { incur_global with y := 0 }).2.2.2.2.2.2.2.2.2.2 (by decide)⟩

/-- Counterexample to C17 as stated: with the cached column at 255, `addch` of
the printable byte `A` writes the byte and leaves the cached column at 0, not
at 256: the column is a `uint8_t` and `++ G(x)` wraps. -/
theorem addch_printable_wrap_counterexample :
    addch 0x41 { incur_global with x := 255 }
      = (OK, { incur_global with x := 0, out := [0x41] }) ∧
    (addch 0x41 { incur_global with x := 255 }).2.x ≠ { incur_global with x := 255 }.x + 1 := by
  decide

/-- C17, amended. Classes of `addch` other than backspace and newline: a
printable byte `0x20..0x7e` is written as that one byte and advances the cached
column by 1 modulo 256 (the column is an 8-bit field: exactly 1 below column
255), row unchanged; carriage return `0x0d` is written and sets the column to
0; tab `0x09` writes nothing and changes nothing; every other byte (controls
other than `0x08`, `0x09`, `0x0a`, `0x0d`, and `0x7f..0xff`) is written
unchanged as one byte, cursor and attribute unchanged. `addch` returns `OK` for
every byte. -/
theorem addch_classes (s : Screen) (ch : Nat) (hch : ch ≤ 0xff) :
    (0x20 ≤ ch ∧ ch ≤ 0x7e →
      addch ch s = (OK, { s with out := s.out ++ [ch], x := (s.x + 1) % 256 }) ∧
      (s.x < 255 → (addch ch s).2.x = s.x + 1)) ∧
    (ch = 0x0d → addch ch s = (OK, { s with out := s.out ++ [0x0d], x := 0 })) ∧
    (ch = 0x09 → addch ch s = (OK, s)) ∧
    ((ch < 0x20 ∧ ch ≠ 0x08 ∧ ch ≠ 0x09 ∧ ch ≠ 0x0a ∧ ch ≠ 0x0d) ∨ 0x7f ≤ ch →
      addch ch s = (OK, { s with out := s.out ++ [ch] })) ∧
    (addch ch s).1 = OK := by
  have hb := DRV_PUTC_byte ch s (by omega)
  refine ⟨?_, ?_, ?_, ?_, ?_⟩
  · intro h
    have h1 : ¬ ch = 0x08 := by omega
    have h2 : ¬ ch = 0x09 := by omega
    have h3 : ¬ ch = 0x0a := by omega
    have h4 : ¬ ch = 0x0d := by omega
    have h5 : ¬ (ch < 0x20 ∨ ch ≥ 0x7f) := by omega
    have e : addch ch s = (OK, { s with out := s.out ++ [ch], x := (s.x + 1) % 256 }) := by
      simp only [addch, h1, h2, h3, h4, h5, if_false, hb]
    refine ⟨e, fun hx => ?_⟩
    rw [e]
    exact Nat.mod_eq_of_lt (by omega)
  · intro h
    subst h
    simp [addch, DRV_PUTC]
  · intro h
    subst h
    simp [addch]
  · intro h
    have h1 : ¬ ch = 0x08 := by omega
    have h2 : ¬ ch = 0x09 := by omega
    have h3 : ¬ ch = 0x0a := by omega
    have h4 : ¬ ch = 0x0d := by omega
    have h5 : ch < 0x20 ∨ ch ≥ 0x7f := by omega
    simp only [addch, h1, h2, h3, h4, h5, if_false, if_true, hb]
  · unfold addch
    split_ifs <;> rfl

/-- Witness of C17 (amended): `a`, carriage return, tab and the byte `0x80` in
the state with the cached column at 5. -/
theorem addch_classes_witness :
    ((0x61 : Nat) ≤ 0xff ∧ (0x20 ≤ 0x61 ∧ 0x61 ≤ 0x7e)) ∧
    addch 0x61 { incur_global with x := 5 }
      = (OK, { incur_global with out := [0x61], x := 6 }) ∧
    addch 0x0d { incur_global with x := 5 }
      = (OK, { incur_global with out := [0x0d], x := 0 }) ∧
    addch 0x09 { incur_global with x := 5 } = (OK, { incur_global with x := 5 }) ∧
    addch 0x80 { incur_global with x := 5 }
      = (OK, { incur_global with out := [0x80], x := 5 }) :=
  ⟨by decide,
   ((addch_classes { incur_global with x := 5 } 0x61 (by decide)).1 (by decide)).1,
   (addch_classes { incur_global with x := 5 } 0x0d (by decide)).2.1 rfl,
   (addch_classes { incur_global with x := 5 } 0x09 (by decide)).2.2.1 rfl,
   (addch_classes { incur_global with x := 5 } 0x80 (by decide)).2.2.2.1 (Or.inr (by decide))⟩

/-! ## `unctrl` is injective -/

set_option maxRecDepth 100000 in
theorem unctrl_decode_table :
    ∀ c, c < 256 →
      (unctrl_decode (unctrl c) = c ∧
       1 ≤ (unctrl c).length ∧ (unctrl c).length ≤ 3 ∧
       ∀ b ∈ unctrl c, 0x20 ≤ b ∧ b ≤ 0x7e) := by
  decide

/-- C19. `unctrl` is injective on bytes: two different bytes give different
strings. Every result has between 1 and 3 characters, all printable ASCII
(`0x20..0x7e`), so with its terminator it fits the 5-byte buffer `repr`. -/
theorem unctrl_injective (c1 c2 : Nat) (h1 : c1 ≤ 0xff) (h2 : c2 ≤ 0xff) :
    (c1 ≠ c2 → unctrl c1 ≠ unctrl c2) ∧
    1 ≤ (unctrl c1).length ∧ (unctrl c1).length ≤ 3 ∧
    (∀ b ∈ unctrl c1, 0x20 ≤ b ∧ b ≤ 0x7e) ∧
    (unctrl c1).length + 1 ≤ 5 := by
  have t1 := unctrl_decode_table c1 (by omega)
  have t2 := unctrl_decode_table c2 (by omega)
  refine ⟨?_, t1.2.1, t1.2.2.1, t1.2.2.2, by omega⟩
  intro hne heq
  apply hne
  rw [← t1.1, ← t2.1, heq]

/-- Witness of C19: `A` (`0x41`) and control-A (`0x01`) give `A` and `^A`. -/
theorem unctrl_injective_witness :
    ((0x41 : Nat) ≤ 0xff ∧ (0x01 : Nat) ≤ 0xff ∧ (0x41 : Nat) ≠ 0x01) ∧
    unctrl 0x41 ≠ unctrl 0x01 ∧
    unctrl 0x41 = cstring "A" ∧ unctrl 0x01 = cstring "^A" :=
  ⟨by decide, (unctrl_injective 0x41 0x01 (by decide) (by decide)).1 (by decide),
   by decide, by decide⟩

end Incurses
